import Mathlib

/-!
Verification of the blueshipsync payload relay and validation engine.

The development shallowly embeds the Python sources:
  - `receiver_bridge.py` (classes `DatabaseManager`, `SignatureValidator`,
    `CarrierBridge`),
  - `shipper.py` (the framing side of `ShipperBridge.send_to_carrier`),
  - `nfc_logistics_system/backend/common/security.py` (`SecurityManager`).

JSON documents are modelled by the inductive type `JsonVal`; Python dicts
become association lists whose lookup takes the first matching key.  Each
Python operation that can raise is modelled in `Except Unit`, and every
`try ... except: return False` wrapper is modelled by `runBoolFalse` /
explicit matches.  External collaborators (the SAP client, a remote
listener, RSA and MD5 primitives) are parameters of the embedded
functions, exactly as they are opaque calls in the source.  Byte strings
are `List Nat` with values below 256.
-/

/-- A Python `float` as `json` sees it: the decimal that `repr` prints
(shortest round-trip form `±m·10^e`), plus the infinities and `NaN`,
which default `json` both accepts and emits.  Every float the system
serializes corresponds to exactly one canonical such decimal (mantissa
not divisible by ten; zero carries exponent zero). -/
inductive PyFloat where
  | finite (neg : Bool) (m : Nat) (e : Int)
  | inf (neg : Bool)
  | nan
deriving DecidableEq, Repr

/-- A JSON document: the payloads moved by the relay protocol.  Objects are
association lists in insertion order, mirroring Python dicts; numbers
keep Python's `int` / `float` distinction. -/
inductive JsonVal where
  | null
  | bool (b : Bool)
  | num (n : Int)
  | fnum (f : PyFloat)
  | str (s : String)
  | arr (elems : List JsonVal)
  | obj (fields : List (String × JsonVal))
deriving Repr

namespace JsonVal

mutual

/-- Structural boolean equality on JSON values. -/
def beqVal : JsonVal → JsonVal → Bool
  | .null, .null => true
  | .bool a, .bool b => a == b
  | .num a, .num b => a == b
  | .fnum a, .fnum b => a == b
  | .str a, .str b => a == b
  | .arr a, .arr b => beqElems a b
  | .obj a, .obj b => beqFields a b
  | _, _ => false

/-- Element-wise equality of JSON arrays. -/
def beqElems : List JsonVal → List JsonVal → Bool
  | [], [] => true
  | a :: as, b :: bs => beqVal a b && beqElems as bs
  | _, _ => false

/-- Field-wise equality of JSON objects. -/
def beqFields : List (String × JsonVal) → List (String × JsonVal) → Bool
  | [], [] => true
  | (k, v) :: as, (k2, v2) :: bs => k == k2 && beqVal v v2 && beqFields as bs
  | _, _ => false

end

end JsonVal

/-- Key lookup in a JSON object field list (first match wins, as in a
Python dict, whose keys are unique). -/
def lookupField (fs : List (String × JsonVal)) (k : String) : Option JsonVal :=
  match fs with
  | [] => none
  | (k2, v) :: t => if k2 = k then some v else lookupField t k

/-- Python truthiness of a JSON value (`if not x`): `None`, `False`, `0`,
empty string, empty list and empty dict are falsy. -/
def truthy : JsonVal → Bool
  | .null => false
  | .bool b => b
  | .num n => n != 0
  | .fnum (.finite _ m _) => m != 0
  | .fnum _ => true
  | .str s => s != ""
  | .arr elems => !elems.isEmpty
  | .obj fields => !fields.isEmpty

/-- Python truthiness of an optional value; `None` (absent) is falsy. -/
def truthyOpt (o : Option JsonVal) : Bool :=
  match o with
  | none => false
  | some v => truthy v

/-- `d.get(k, dflt)`: on a dict returns the value or the default; on any
other value Python raises `AttributeError`, modelled as `Except.error`. -/
def pyGetD (v : JsonVal) (k : String) (dflt : JsonVal) : Except Unit JsonVal :=
  match v with
  | .obj fs => .ok ((lookupField fs k).getD dflt)
  | _ => .error ()

/-- `d.get(k)`: on a dict returns the value or `None`; otherwise raises. -/
def pyGetOpt (v : JsonVal) (k : String) : Except Unit (Option JsonVal) :=
  match v with
  | .obj fs => .ok (lookupField fs k)
  | _ => .error ()

/-- `d[k]`: raises `KeyError` when the key is absent and `TypeError` when
the value is not a dict. -/
def pyIndex (v : JsonVal) (k : String) : Except Unit JsonVal :=
  match v with
  | .obj fs =>
    match lookupField fs k with
    | some x => .ok x
    | none => .error ()
  | _ => .error ()

/-- `d[k] = x` on a dict: replaces the value in place when the key exists
(a Python dict keeps the original position), appends otherwise; raises on
a non-dict. -/
def setFieldList (fs : List (String × JsonVal)) (k : String) (x : JsonVal) :
    List (String × JsonVal) :=
  match fs with
  | [] => [(k, x)]
  | (k2, v) :: t => if k2 = k then (k2, x) :: t else (k2, v) :: setFieldList t k x

/-- Assignment `d[k] = x` as an `Except` action (raises on non-dicts). -/
def pySet (v : JsonVal) (k : String) (x : JsonVal) : Except Unit JsonVal :=
  match v with
  | .obj fs => .ok (.obj (setFieldList fs k x))
  | _ => .error ()

/-- A `try: ... except Exception: return False` wrapper around a boolean
computation, as used throughout `receiver_bridge.py`. -/
def runBoolFalse (x : Except Unit Bool) : Bool :=
  match x with
  | .ok b => b
  | .error _ => false

/-! ## SignatureValidator (receiver_bridge.py lines 215-275)

`SignatureValidator.validate_signature` extracts
`payload.get('digital_signature', {})` and
`payload.get('shipper_erp', {}).get('id')`, fails when either is falsy or
when the shipper id is not a key of the trusted-certificate registry, and
then only checks that the `algorithm` and `signature` entries of the
signature info are truthy.  The registry is modelled by its key list. -/

/-- Membership test `shipper_id not in self.trusted_certificates`.  Only a
string can equal a string key; an unhashable id raises `TypeError`, which
the surrounding `except` also turns into `False`, so both are `false`
here. -/
def memTrusted (trusted : List String) (o : Option JsonVal) : Bool :=
  match o with
  | some (.str s) => trusted.contains s
  | _ => false

/-- Model of `SignatureValidator.validate_signature` from
`receiver_bridge.py`.  Note that the signature bytes themselves are never
cryptographically checked: the code only requires the `algorithm` and
`signature` fields to be truthy. -/
def validate_signature (trusted : List String) (payload : JsonVal) : Bool :=
  runBoolFalse (do
    let signatureInfo ← pyGetD payload "digital_signature" (.obj [])
    let shipperErp ← pyGetD payload "shipper_erp" (.obj [])
    let shipperId ← pyGetOpt shipperErp "id"
    if !truthy signatureInfo || !truthyOpt shipperId then
      return false
    if !memTrusted trusted shipperId then
      return false
    let algorithm ← pyGetOpt signatureInfo "algorithm"
    let signatureData ← pyGetOpt signatureInfo "signature"
    return (truthyOpt algorithm && truthyOpt signatureData))

/-- The claimed sender id of a payload: the value of
`payload.get('shipper_erp', {}).get('id')`, or `none` when the extraction
raises. -/
def claimedSender (payload : JsonVal) : Option JsonVal :=
  match pyGetD payload "shipper_erp" (.obj []) with
  | .ok se =>
    match pyGetOpt se "id" with
    | .ok o => o
    | .error _ => none
  | .error _ => none

/-- The default trusted-shipper registry created by
`SignatureValidator._load_trusted_certificates` holds the single key
`SHIPPER001`. -/
def defaultTrusted : List String := ["SHIPPER001"]

/-- A payload shaped like the ones `shipper.py` produces, with the shipper
id, signature algorithm and signature text as parameters and arbitrary
further fields. -/
def sigPayload (sid alg sig : String) (rest : List (String × JsonVal)) : JsonVal :=
  .obj (("digital_signature",
          .obj [("algorithm", .str alg), ("signature", .str sig)]) ::
        ("shipper_erp", .obj [("id", .str sid)]) :: rest)

/-! ## DatabaseManager (receiver_bridge.py lines 72-212)

The SQLite store becomes an association list keyed by the
`transaction_id` value, plus an append-only audit table.  The wall clock
(`datetime.now`) is an explicit `now` argument. -/

/-- One row of the `transactions` table.  The `payload` column stores
`json.dumps(payload)`; the model keeps the JSON value itself (the dump is
recomputed from it where the text matters). -/
structure TxRow where
  payload : JsonVal
  status : JsonVal
  receivedTimestamp : String
  processedTimestamp : Option String
  shipperId : Option JsonVal
  orderNumber : Option JsonVal
  carrierName : Option JsonVal
  totalValue : JsonVal
deriving Repr

/-- One row of the `audit_log` table. -/
structure AuditEntry where
  transactionId : JsonVal
  action : String
  actor : String
  timestamp : String
  details : String
deriving Repr

/-- The receiver database: transactions keyed by id, and the audit log. -/
structure DB where
  transactions : List (JsonVal × TxRow)
  auditLog : List AuditEntry
deriving Repr

/-- The empty database created by `_init_database`. -/
def emptyDB : DB := ⟨[], []⟩

/-- Key lookup among stored transactions (SQLite `WHERE transaction_id = ?`). -/
def lookupTx (txs : List (JsonVal × TxRow)) (k : JsonVal) : Option TxRow :=
  match txs with
  | [] => none
  | (k2, v) :: t => if JsonVal.beqVal k2 k then some v else lookupTx t k

/-- `INSERT OR REPLACE` keyed by `transaction_id`: replaces the existing
row in place, or appends a fresh one. -/
def upsertTx (txs : List (JsonVal × TxRow)) (k : JsonVal) (r : TxRow) :
    List (JsonVal × TxRow) :=
  match txs with
  | [] => [(k, r)]
  | (k2, v) :: t => if JsonVal.beqVal k2 k then (k2, r) :: t else (k2, v) :: upsertTx t k r

/-- Model of `DatabaseManager.log_audit`: appends one audit row; its own
`try/except` means it never fails. -/
def log_audit (db : DB) (tid : JsonVal) (action actor details now : String) : DB :=
  { db with auditLog := db.auditLog ++ [⟨tid, action, actor, now, details⟩] }

/-- The remaining column values of the `INSERT OR REPLACE` argument tuple
after `payload['transaction_id']`: `payload['status']` and the `.get`
chains for shipper id, order number, carrier and total value.  Any raising
access aborts the whole insert. -/
def storeExtract (payload : JsonVal) :
    Except Unit (JsonVal × Option JsonVal × Option JsonVal × Option JsonVal × JsonVal) := do
  let status ← pyIndex payload "status"
  let shipperErp ← pyGetD payload "shipper_erp" (.obj [])
  let shipperId ← pyGetOpt shipperErp "id"
  let orderNumber ← pyGetOpt shipperErp "order_number"
  let bol ← pyGetD payload "bol" (.obj [])
  let carrier ← pyGetOpt bol "carrier"
  let invoice ← pyGetD payload "commercial_invoice" (.obj [])
  let totalValue ← pyGetD invoice "total_value" (.num 0)
  pure (status, shipperId, orderNumber, carrier, totalValue)

/-- Model of `DatabaseManager.store_transaction`.  The argument tuple is
evaluated left to right (`payload['transaction_id']` first), and any
raising access aborts before the insert and yields `False`; otherwise the
row is written with `INSERT OR REPLACE` and one audit entry is logged. -/
def store_transaction (now : String) (db : DB) (payload : JsonVal) : DB × Bool :=
  match pyIndex payload "transaction_id" with
  | .error _ => (db, false)
  | .ok tid =>
    match storeExtract payload with
    | .error _ => (db, false)
    | .ok (status, shipperId, orderNumber, carrier, totalValue) =>
      let row : TxRow :=
        ⟨payload, status, now, none, shipperId, orderNumber, carrier, totalValue⟩
      let db2 := { db with transactions := upsertTx db.transactions tid row }
      (log_audit db2 tid "transaction_stored" "receiver_bridge"
        "Transaction stored in database" now, true)

/-- Model of `DatabaseManager.update_transaction_status`: an unconditional
SQL `UPDATE` of `status` and `processed_timestamp`; returns `True` exactly
when the row exists (`cursor.rowcount > 0`), in which case one audit entry
is appended.  No transition table is consulted. -/
def update_transaction_status (now : String) (db : DB) (tid : JsonVal) (status : String) :
    DB × Bool :=
  match lookupTx db.transactions tid with
  | some row =>
    let row2 := { row with status := JsonVal.str status, processedTimestamp := some now }
    let db2 := { db with transactions := upsertTx db.transactions tid row2 }
    (log_audit db2 tid "status_updated" "receiver_bridge"
      ("Status updated to " ++ status) now, true)
  | none => (db, false)

/-- Model of `DatabaseManager.get_transaction`: the stored payload. -/
def get_transaction (db : DB) (tid : JsonVal) : Option JsonVal :=
  (lookupTx db.transactions tid).map (fun r => r.payload)

/-! ## CarrierBridge.process_delivery (receiver_bridge.py lines 528-618)

The SAP client is an opaque collaborator: `create_goods_receipt` becomes a
parameter `sap : JsonVal → Option String` (it catches every exception
internally and returns `None` on failure); `update_purchase_order` and
`release_payment` likewise swallow their errors and touch no bridge state,
so they vanish from the state transition.  `_notify_shipper_completion`
opens one outbound socket; success and failure are only logged, so its
observable effect is the attempt count. -/

/-- The bridge state: the receiver database plus the number of outbound
completion-notification connection attempts made so far. -/
structure BridgeState where
  db : DB
  completionAttempts : Nat
deriving Repr

/-- The initial bridge state. -/
def emptyState : BridgeState := ⟨emptyDB, 0⟩

/-- The audit-trail entry appended to the in-memory payload by
`process_delivery` (with the default `ReceiverConfig` identity). -/
def deliveryAuditEntry (now : String) : JsonVal :=
  .obj [("action", .str "delivery_received"),
        ("timestamp", .str now),
        ("actor", .str "receiver_RECEIVER001"),
        ("location", .str "Westerville Distribution Center"),
        ("notes", .str "Delivery received via NFC")]

/-- The in-place payload mutations performed by `process_delivery` after a
successful store: set `status` to `delivered`, refresh `timestamp`, and
append a `delivery_received` entry to `audit_trail` (creating the list if
absent; a non-list `audit_trail` raises `AttributeError` on `.append`). -/
def mutatePayload (now : String) (payload : JsonVal) : Except Unit JsonVal := do
  let p1 ← pySet payload "status" (.str "delivered")
  let p2 ← pySet p1 "timestamp" (.str now)
  let p3 ←
    match p2 with
    | .obj fs =>
      if (lookupField fs "audit_trail").isNone then
        pySet p2 "audit_trail" (.arr [])
      else
        pure p2
    | _ => Except.error ()
  match pyIndex p3 "audit_trail" with
  | .ok (.arr items) => pySet p3 "audit_trail" (.arr (items ++ [deliveryAuditEntry now]))
  | _ => Except.error ()

/-- Model of `CarrierBridge._notify_shipper_completion`: builds the
completion record (which can raise before any network activity), then
makes exactly one outbound connection attempt.  Whether the listener is
reachable, answers `ACK`, or times out is only logged — the returned
value is the number of connection attempts, which never exceeds one and
does not depend on `reachable`. -/
def notify_shipper_completion (_reachable : Bool) (payload : JsonVal) : Nat :=
  match (do
    let _ ← pyIndex payload "transaction_id"
    let shipperErp ← pyGetD payload "shipper_erp" (.obj [])
    let _ ← pyGetOpt shipperErp "order_number"
    let _ ← pyGetOpt payload "sap_goods_receipt"
    pure () : Except Unit Unit) with
  | .error _ => 0
  | .ok _ => 1

/-- Model of `CarrierBridge.process_delivery`.  Each early `return False`
and each raising access is a branch that keeps whatever database state has
been committed so far (SQLite commits inside each `with` block, so a later
exception never rolls an earlier write back). -/
def process_delivery (trusted : List String) (sap : JsonVal → Option String)
    (reachable : Bool) (now : String) (st : BridgeState) (payload : JsonVal) :
    BridgeState × Bool :=
  match pyGetOpt payload "transaction_id" with
  | .error _ => (st, false)
  | .ok tidOpt =>
    if !truthyOpt tidOpt then (st, false)
    else
      if !validate_signature trusted payload then (st, false)
      else
        if !(store_transaction now st.db payload).2 then
          ({ st with db := (store_transaction now st.db payload).1 }, false)
        else
          match mutatePayload now payload with
          | .error _ => ({ st with db := (store_transaction now st.db payload).1 }, false)
          | .ok p3 =>
            if (sap p3).elim false (fun s => s != "") then
              match pySet p3 "sap_goods_receipt" (.str ((sap p3).getD "")) with
              | .error _ => ({ st with db := (store_transaction now st.db payload).1 }, false)
              | .ok p4 =>
                match (do
                  let re ← pyGetD p4 "receiver_erp" (.obj [])
                  pyGetOpt re "purchase_order" : Except Unit (Option JsonVal)) with
                | .error _ => ({ st with db := (store_transaction now st.db payload).1 }, false)
                | .ok _ =>
                  (⟨(update_transaction_status now (store_transaction now st.db payload).1
                      (tidOpt.getD .null) "confirmed").1,
                    st.completionAttempts + notify_shipper_completion reachable p4⟩, true)
            else ({ st with db := (store_transaction now st.db payload).1 }, false)

/-- A sequence of deliveries processed one after the other (each inbound
connection drives exactly one `process_delivery`). -/
def runDeliveries (trusted : List String) (sap : JsonVal → Option String)
    (reachable : Bool) (now : String) (subs : List JsonVal) (st : BridgeState) :
    BridgeState :=
  match subs with
  | [] => st
  | p :: rest =>
    runDeliveries trusted sap reachable now rest
      (process_delivery trusted sap reachable now st p).1

/-- A well-formed demonstration payload from the trusted shipper. -/
def demoPayload : JsonVal :=
  sigPayload "SHIPPER001" "RSA-SHA256" "dGVzdA=="
    [("transaction_id", .str "TXN-1"), ("status", .str "in_transit")]

/-- A SAP stub whose goods-receipt creation always succeeds. -/
def demoSap : JsonVal → Option String := fun _ => some "GR-1"

/-- A payload carrying the floats the system actually ships: the default
Westerville geolocation `40.1262 / -82.9291`, a package weight `2.5` and
an invoice total `1250.0`. -/
def floatPayload : JsonVal :=
  .obj [("transaction_id", .str "TXN-1"),
        ("geolocation", .obj [("latitude", .fnum (.finite false 401262 (-4))),
                              ("longitude", .fnum (.finite true 829291 (-4)))]),
        ("weight", .fnum (.finite false 25 (-1))),
        ("total_value", .fnum (.finite false 125 1))]

/-- The row stored for `demoPayload` after the `confirmed` status update. -/
def demoRow : TxRow :=
  ⟨demoPayload, .str "confirmed", "T0", some "T0", some (.str "SHIPPER001"),
    none, none, .num 0⟩

/-- A stored transaction currently in status `delivered`. -/
def t1row : TxRow :=
  ⟨.obj [("transaction_id", .str "T1")], .str "delivered", "T0", none, none, none, none, .num 0⟩

/-- A database holding `t1row` under id `T1`. -/
def t1db : DB := ⟨[(.str "T1", t1row)], []⟩

/-- A first payload under id `TXN-9`. -/
def payA : JsonVal :=
  .obj [("transaction_id", .str "TXN-9"), ("status", .str "initiated"),
        ("cargo", .str "widgets")]

/-- A different payload under the same id `TXN-9`. -/
def payB : JsonVal :=
  .obj [("transaction_id", .str "TXN-9"), ("status", .str "initiated"),
        ("cargo", .str "gadgets")]

/-! ## JSON serialization (model of Python json.dumps)

`shipper.py` frames `json.dumps(payload)` (default separators, insertion
order, `ensure_ascii`); `security.py` canonicalizes with
`json.dumps(data, sort_keys=True, separators=(',', ':'))`.  Both are
modelled over `List Char`; braces are written via `Char.ofNat` codes. -/

/-- The opening brace character. -/
def jLB : Char := Char.ofNat 123

/-- The closing brace character. -/
def jRB : Char := Char.ofNat 125

/-- The decimal digit character for `d < 10`. -/
def digitChar (d : Nat) : Char := Char.ofNat (48 + d)

/-- Fueled digit emission; the fuel only needs to exceed the number. -/
def natToDigitsAux : Nat → Nat → List Char
  | 0, _ => []
  | fuel + 1, n =>
    if n < 10 then [digitChar n]
    else natToDigitsAux fuel (n / 10) ++ [digitChar (n % 10)]

/-- The decimal digits of a natural number, most significant first. -/
def natToDigits (n : Nat) : List Char :=
  natToDigitsAux (n + 1) n

/-- The serialization of an integer, as Python prints `int`. -/
def intChars : Int → List Char
  | .ofNat m => natToDigits m
  | .negSucc m => '-' :: natToDigits (m + 1)

/-- Zero characters for positional padding. -/
def zeroChars (k : Nat) : List Char := List.replicate k '0'

/-- The exponent digits `repr` prints after `e+`/`e-`: at least two. -/
def expDigits (k : Nat) : List Char :=
  if k < 10 then '0' :: natToDigits k else natToDigits k

/-- Strip factors of ten from the mantissa into the exponent (shortest
form of the decimal); any fuel at least the mantissa suffices. -/
def canonFloatAux : Nat → Nat → Int → Nat × Int
  | 0, m, e => (m, e)
  | fuel + 1, m, e =>
    if m ≠ 0 ∧ m % 10 = 0 then canonFloatAux fuel (m / 10) (e + 1) else (m, e)

/-- The canonical decimal for `±m·10^e` (a zero mantissa collapses to
signed zero). -/
def canonFloat (neg : Bool) (m : Nat) (e : Int) : PyFloat :=
  if m = 0 then .finite neg 0 0
  else
    match canonFloatAux m m e with
    | (m2, e2) => .finite neg m2 e2

/-- The digits-and-dot part of `repr(float)` for a canonical nonzero
mantissa: positional notation when the decimal exponent lies in
`[-4, 16)`, scientific notation otherwise, exactly as CPython's shortest
`float_repr` formats with code `'r'`. -/
def floatDigitsPart (m : Nat) (e : Int) : List Char :=
  if -4 ≤ e + ((natToDigits m).length : Int) - 1 ∧
      e + ((natToDigits m).length : Int) - 1 < 16 then
    if 0 ≤ e then natToDigits m ++ zeroChars e.toNat ++ ['.', '0']
    else if 0 < e + ((natToDigits m).length : Int) then
      (natToDigits m).take (e + ((natToDigits m).length : Int)).toNat ++
        '.' :: (natToDigits m).drop (e + ((natToDigits m).length : Int)).toNat
    else '0' :: '.' :: zeroChars (-(e + ((natToDigits m).length : Int))).toNat ++ natToDigits m
  else
    (match natToDigits m with
     | [] => []
     | d :: ds => d :: (if ds.isEmpty then [] else '.' :: ds)) ++
      'e' :: (if 0 ≤ e + ((natToDigits m).length : Int) - 1 then '+' else '-') ::
        expDigits (e + ((natToDigits m).length : Int) - 1).natAbs

/-- Model of `repr(float)` as `json.dumps` prints it: `NaN`, `Infinity`,
`-Infinity` for the non-finite values; otherwise the sign and the
shortest positional or scientific decimal of the value. -/
def floatRepr : PyFloat → List Char
  | .nan => ['N', 'a', 'N']
  | .inf false => ['I', 'n', 'f', 'i', 'n', 'i', 't', 'y']
  | .inf true => '-' :: ['I', 'n', 'f', 'i', 'n', 'i', 't', 'y']
  | .finite neg m e =>
    (if neg then ['-'] else []) ++
      (if m = 0 then ['0', '.', '0']
       else
         match canonFloatAux m m e with
         | (m2, e2) => floatDigitsPart m2 e2)

/-- The lowercase hexadecimal digit for `d < 16` (Python emits lowercase
in its `\uXXXX` escapes). -/
def hexDigitChar (d : Nat) : Char :=
  if d < 10 then Char.ofNat (48 + d) else Char.ofNat (97 + (d - 10))

/-- Four hex digits for a code point below `0x10000`. -/
def hex4 (n : Nat) : List Char :=
  [hexDigitChar (n / 4096 % 16), hexDigitChar (n / 256 % 16),
   hexDigitChar (n / 16 % 16), hexDigitChar (n % 16)]

/-- The `ensure_ascii` escape of one character, following Python's JSON
encoder: the two-character escapes for backslash, quote, backspace, form
feed, newline, carriage return and tab; `\uXXXX` (with a surrogate pair
above `0xFFFF`) for every other control or non-ASCII character; the
character itself otherwise. -/
def escChar (c : Char) : List Char :=
  if c = '\\' then ['\\', '\\']
  else if c = '"' then ['\\', '"']
  else if c.toNat = 8 then ['\\', 'b']
  else if c.toNat = 12 then ['\\', 'f']
  else if c.toNat = 10 then ['\\', 'n']
  else if c.toNat = 13 then ['\\', 'r']
  else if c.toNat = 9 then ['\\', 't']
  else if c.toNat < 32 ∨ 126 < c.toNat then
    if c.toNat < 65536 then '\\' :: 'u' :: hex4 c.toNat
    else
      '\\' :: 'u' :: hex4 (55296 + (c.toNat - 65536) / 1024) ++
        '\\' :: 'u' :: hex4 (56320 + (c.toNat - 65536) % 1024)
  else [c]

/-- A JSON string literal: quote, escaped characters, quote. -/
def dumpString (s : String) : List Char :=
  '"' :: (s.data.map escChar).flatten ++ ['"']

mutual

/-- Model of `json.dumps(v)` with Python's default separators `", "` and
`": "`, emitting object fields in insertion order. -/
def dumpsVal : JsonVal → List Char
  | .null => (['n', 'u', 'l', 'l'] : List Char)
  | .bool true => (['t', 'r', 'u', 'e'] : List Char)
  | .bool false => (['f', 'a', 'l', 's', 'e'] : List Char)
  | .num n => intChars n
  | .fnum fl => floatRepr fl
  | .str s => dumpString s
  | .arr [] => ['[', ']']
  | .arr (x :: t) => '[' :: (dumpsVal x ++ dumpsMoreElems t) ++ [']']
  | .obj [] => [jLB, jRB]
  | .obj (kv :: t) =>
    jLB :: (dumpString kv.1 ++ ':' :: ' ' :: dumpsVal kv.2 ++ dumpsMoreFields t) ++ [jRB]

/-- The remaining array elements, each preceded by `", "`. -/
def dumpsMoreElems : List JsonVal → List Char
  | [] => []
  | x :: t => ',' :: ' ' :: dumpsVal x ++ dumpsMoreElems t

/-- The remaining object fields, each preceded by `", "`. -/
def dumpsMoreFields : List (String × JsonVal) → List Char
  | [] => []
  | kv :: t => ',' :: ' ' :: dumpString kv.1 ++ ':' :: ' ' :: dumpsVal kv.2 ++ dumpsMoreFields t

end

/-- Insertion of a field into a key-sorted field list (Python `sorted`
ascending by key, stable). -/
def insertByKey (kv : String × JsonVal) : List (String × JsonVal) → List (String × JsonVal)
  | [] => [kv]
  | hd :: t => if kv.1 < hd.1 then kv :: hd :: t else hd :: insertByKey kv t

/-- Sorting an object's fields by key. -/
def sortFields (fs : List (String × JsonVal)) : List (String × JsonVal) :=
  fs.foldr insertByKey []

mutual

/-- Recursively sort every object's fields by key, as `sort_keys=True`
does at each nesting level. -/
def sortKeysVal : JsonVal → JsonVal
  | .null => .null
  | .bool b => .bool b
  | .num n => .num n
  | .fnum fl => .fnum fl
  | .str s => .str s
  | .arr l => .arr (sortKeysElems l)
  | .obj fs => .obj (sortFields (sortKeysFields fs))

/-- Sort keys inside every element of an array. -/
def sortKeysElems : List JsonVal → List JsonVal
  | [] => []
  | x :: t => sortKeysVal x :: sortKeysElems t

/-- Sort keys inside every field value. -/
def sortKeysFields : List (String × JsonVal) → List (String × JsonVal)
  | [] => []
  | (k, v) :: t => (k, sortKeysVal v) :: sortKeysFields t

end

mutual

/-- Model of `json.dumps(v, separators=(',', ':'))`: compact separators,
fields in the order given. -/
def compactVal : JsonVal → List Char
  | .null => (['n', 'u', 'l', 'l'] : List Char)
  | .bool true => (['t', 'r', 'u', 'e'] : List Char)
  | .bool false => (['f', 'a', 'l', 's', 'e'] : List Char)
  | .num n => intChars n
  | .fnum fl => floatRepr fl
  | .str s => dumpString s
  | .arr [] => ['[', ']']
  | .arr (x :: t) => '[' :: (compactVal x ++ compactMoreElems t) ++ [']']
  | .obj [] => [jLB, jRB]
  | .obj (kv :: t) =>
    jLB :: (dumpString kv.1 ++ ':' :: compactVal kv.2 ++ compactMoreFields t) ++ [jRB]

/-- The remaining compact array elements, each preceded by `","`. -/
def compactMoreElems : List JsonVal → List Char
  | [] => []
  | x :: t => ',' :: compactVal x ++ compactMoreElems t

/-- The remaining compact object fields, each preceded by `","`. -/
def compactMoreFields : List (String × JsonVal) → List Char
  | [] => []
  | kv :: t => ',' :: dumpString kv.1 ++ ':' :: compactVal kv.2 ++ compactMoreFields t

end

/-- The canonical serialization used by `SecurityManager`:
`json.dumps(data, sort_keys=True, separators=(',', ':'))`. -/
def canonDumps (v : JsonVal) : List Char :=
  compactVal (sortKeysVal v)

/-- UTF-8 encoding of one character (`str.encode('utf-8')`). -/
def utf8EncodeChar (c : Char) : List Nat :=
  if c.toNat < 128 then [c.toNat]
  else if c.toNat < 2048 then [192 + c.toNat / 64, 128 + c.toNat % 64]
  else if c.toNat < 65536 then
    [224 + c.toNat / 4096, 128 + c.toNat / 64 % 64, 128 + c.toNat % 64]
  else
    [240 + c.toNat / 262144, 128 + c.toNat / 4096 % 64, 128 + c.toNat / 64 % 64,
     128 + c.toNat % 64]

/-- UTF-8 encoding of a character sequence. -/
def utf8Encode (cs : List Char) : List Nat :=
  (cs.map utf8EncodeChar).flatten

/-! ## base64 (Python base64.b64encode / b64decode)

Standard base64 with `=` padding over byte lists.  The decoder accepts
exactly the well-formed encodings (groups of four alphabet characters
with correct trailing padding); `binascii.Error` on malformed input is
`Except.error`. -/

/-- The base64 alphabet character for a sextet `n < 64`. -/
def b64Char (n : Nat) : Char :=
  if n < 26 then Char.ofNat (65 + n)
  else if n < 52 then Char.ofNat (97 + (n - 26))
  else if n < 62 then Char.ofNat (48 + (n - 52))
  else if n = 62 then '+'
  else '/'

/-- The sextet value of a base64 alphabet character. -/
def b64Val (c : Char) : Option Nat :=
  let n := c.toNat
  if 65 ≤ n ∧ n ≤ 90 then some (n - 65)
  else if 97 ≤ n ∧ n ≤ 122 then some (n - 97 + 26)
  else if 48 ≤ n ∧ n ≤ 57 then some (n - 48 + 52)
  else if n = 43 then some 62
  else if n = 47 then some 63
  else none

/-- Model of `base64.b64encode` over bytes. -/
def b64Encode : List Nat → List Char
  | [] => []
  | [a] => [b64Char (a / 4), b64Char (a % 4 * 16), '=', '=']
  | [a, b] => [b64Char (a / 4), b64Char (a % 4 * 16 + b / 16), b64Char (b % 16 * 4), '=']
  | a :: b :: c :: rest =>
    b64Char (a / 4) :: b64Char (a % 4 * 16 + b / 16) :: b64Char (b % 16 * 4 + c / 64) ::
      b64Char (c % 64) :: b64Encode rest

/-- Model of `base64.b64decode` over well-formed input. -/
def b64Decode : List Char → Except Unit (List Nat)
  | [] => .ok []
  | c1 :: c2 :: c3 :: c4 :: rest =>
    match b64Val c1, b64Val c2 with
    | some v1, some v2 =>
      if c3 = '=' then
        if c4 = '=' ∧ rest = [] then .ok [v1 * 4 + v2 / 16] else .error ()
      else
        match b64Val c3 with
        | some v3 =>
          if c4 = '=' then
            if rest = [] then .ok [v1 * 4 + v2 / 16, v2 % 16 * 16 + v3 / 4] else .error ()
          else
            match b64Val c4 with
            | some v4 =>
              match b64Decode rest with
              | .ok tail =>
                .ok ((v1 * 4 + v2 / 16) :: (v2 % 16 * 16 + v3 / 4) :: (v3 % 4 * 64 + v4) :: tail)
              | .error e => .error e
            | none => .error ()
        | none => .error ()
    | _, _ => .error ()
  | _ => .error ()

/-! ## SecurityManager (security.py lines 88-270)

The RSA-PSS primitives and MD5 are external library calls: the signing
key becomes a parameter `sign : List Nat → List Nat`, verification with
the corresponding public key a parameter
`verifyPrim : List Nat → List Nat → Bool` (signature bytes, then message
bytes; `True` exactly when `public_key.verify` does not raise), and MD5
a parameter `md5hex : List Nat → List Char`. -/

/-- Model of `SecurityManager.create_digital_signature`: sign the UTF-8
bytes of the canonical JSON of `data`, return the base64 text. -/
def create_digital_signature (sign : List Nat → List Nat) (data : JsonVal) : List Char :=
  b64Encode (sign (utf8Encode (canonDumps data)))

/-- Model of `SecurityManager.verify_digital_signature`: decode the
base64 signature and verify it against the UTF-8 bytes of the canonical
JSON of `data`; every exception (malformed base64, cryptographic
mismatch) yields `False`. -/
def verify_digital_signature (verifyPrim : List Nat → List Nat → Bool)
    (data : JsonVal) (signature : List Char) : Bool :=
  match b64Decode signature with
  | .error _ => false
  | .ok sigBytes => verifyPrim sigBytes (utf8Encode (canonDumps data))

/-- Model of `SecurityManager.generate_checksum`: MD5 hex digest of the
canonical JSON of `data`. -/
def generate_checksum (md5hex : List Nat → List Char) (data : JsonVal) : List Char :=
  md5hex (utf8Encode (canonDumps data))

/-- Model of `SecurityManager.verify_checksum`: constant-time equality of
the recomputed digest with the presented one. -/
def verify_checksum (md5hex : List Nat → List Char) (data : JsonVal)
    (checksum : List Char) : Bool :=
  generate_checksum md5hex data == checksum

/-- Model of `SecurityManager.validate_secure_payload`.  The checksum is
recomputed over the whole payload (including its `security` section) and
gates the digital-signature check; each failure carries the reason string
of the source.  A payload or security section that makes the extraction
raise lands in the `except` branch with a `Validation error` reason. -/
def validate_secure_payload (md5hex : List Nat → List Char)
    (verifyPrim : List Nat → List Nat → Bool) (payload : JsonVal) : Bool × String :=
  match payload with
  | .obj fs =>
    match lookupField fs "security" with
    | none => (false, "Missing security section")
    | some security =>
      match security with
      | .obj sfs =>
        match lookupField sfs "checksum" with
        | none => (false, "Missing checksum")
        | some ck =>
          match ck with
          | .str cks =>
            if verify_checksum md5hex payload cks.data then
              match lookupField sfs "digital_signature" with
              | none => (false, "Missing digital signature")
              | some (.str dss) =>
                if verify_digital_signature verifyPrim payload dss.data then
                  (true, "Payload validation successful")
                else
                  (false, "Digital signature verification failed")
              | some _ => (false, "Digital signature verification failed")
            else
              (false, "Checksum verification failed")
          | _ => (false, "Validation error")
      | _ => (false, "Validation error")
  | _ => (false, "Validation error")

/-! ## JSON parsing (model of Python json.loads)

`json.loads` over `List Char`, recursive descent with a fuel bound (the
caller supplies one more than the input length, which the round-trip
theorems show is always sufficient).  Numbers follow the full `json`
grammar: integers (`0|[1-9][0-9]*`, so `007` is cut after the zero and
the stray digits then fail, exactly as `json.loads` rejects them),
fractions and exponents producing floats, and the `NaN` / `Infinity` /
`-Infinity` constants the default decoder accepts.  One deliberate model
note: a lone surrogate `\uXXXX` escape is rejected because Lean strings
hold Unicode scalar values, while a Python `str` can also hold the lone
surrogate `json.loads` produces there; no `json.dumps` output contains
such an escape. -/

/-- JSON whitespace. -/
def isWsChar (c : Char) : Bool :=
  c = ' ' || c = Char.ofNat 9 || c = Char.ofNat 10 || c = Char.ofNat 13

/-- Drop leading JSON whitespace. -/
def skipWs : List Char → List Char
  | [] => []
  | c :: t => if isWsChar c then skipWs t else c :: t

/-- An ASCII decimal digit. -/
def isDigitCh (c : Char) : Bool :=
  48 ≤ c.toNat && c.toNat ≤ 57

/-- The numeric value of a digit string, folded left. -/
def digitsFold (acc : Nat) (l : List Char) : Nat :=
  l.foldl (fun n c => n * 10 + (c.toNat - 48)) acc

/-- The longest digit prefix of the input, and the rest. -/
def spanDigits : List Char → List Char × List Char
  | [] => ([], [])
  | c :: t =>
    if isDigitCh c then
      match spanDigits t with
      | (ds, r) => (c :: ds, r)
    else ([], c :: t)

/-- The integer part of the `json` number regex `0|[1-9][0-9]*`, led by
its first digit: a leading `0` takes no further digits, so `007` is cut
after the zero and `json.loads` then fails on the stray digits. -/
def intPartDigits (c : Char) (rest : List Char) : List Char × List Char :=
  if c = '0' then (['0'], rest)
  else
    match spanDigits rest with
    | (ds, r) => (c :: ds, r)

/-- The `int` produced for a number token without fraction or exponent. -/
def mkInt (neg : Bool) (ids : List Char) : JsonVal :=
  if neg then .num (-(Int.ofNat (digitsFold 0 ids))) else .num (Int.ofNat (digitsFold 0 ids))

/-- The `float` produced for a fractional or exponent number token: the
integer and fraction digits joined into the mantissa, the exponent
shifted down by the fraction length, normalized to the canonical
decimal. -/
def mkFloat (neg : Bool) (ids fds : List Char) (e : Int) : JsonVal :=
  .fnum (canonFloat neg (digitsFold 0 (ids ++ fds)) (e - fds.length))

/-- The exponent digits after `e`/`E` and an optional sign; no digit
there fails the parse. -/
def expDigitsGo (neg : Bool) (ids fds : List Char) (eneg : Bool) (r5 : List Char) :
    Option (JsonVal × List Char) :=
  if (spanDigits r5).1 = [] then none
  else
    some (mkFloat neg ids fds
      (if eneg then -(Int.ofNat (digitsFold 0 (spanDigits r5).1))
       else Int.ofNat (digitsFold 0 (spanDigits r5).1)), (spanDigits r5).2)

/-- After `e`/`E`: an optional sign, then the exponent digits. -/
def parseExpTail (neg : Bool) (ids fds : List Char) (r4 : List Char) :
    Option (JsonVal × List Char) :=
  match r4 with
  | [] => none
  | c :: r5 =>
    if c = '+' then expDigitsGo neg ids fds false r5
    else if c = '-' then expDigitsGo neg ids fds true r5
    else expDigitsGo neg ids fds false (c :: r5)

/-- After the fraction digits: an optional exponent. -/
def parseAfterFrac (neg : Bool) (ids fds : List Char) (r3 : List Char) :
    Option (JsonVal × List Char) :=
  match r3 with
  | [] => some (mkFloat neg ids fds 0, [])
  | c :: r4 =>
    if c = 'e' ∨ c = 'E' then parseExpTail neg ids fds r4
    else some (mkFloat neg ids fds 0, c :: r4)

/-- After the integer digits: an optional fraction and exponent; with
neither, the token stays an `int`.  A dot or exponent marker without a
digit fails (`json.loads` ends the number token before it and then
rejects the stray character). -/
def parseNumberTail (neg : Bool) (ids : List Char) (r1 : List Char) :
    Option (JsonVal × List Char) :=
  match r1 with
  | [] => some (mkInt neg ids, [])
  | c :: r2 =>
    if c = '.' then
      if (spanDigits r2).1 = [] then none
      else parseAfterFrac neg ids (spanDigits r2).1 (spanDigits r2).2
    else if c = 'e' ∨ c = 'E' then parseExpTail neg ids [] r2
    else some (mkInt neg ids, c :: r2)

/-- A whole number token, led by its first digit. -/
def parseNumberGo (neg : Bool) (d : Char) (r : List Char) : Option (JsonVal × List Char) :=
  match intPartDigits d r with
  | (ids, r1) => parseNumberTail neg ids r1

/-- The value of one hexadecimal digit (either case). -/
def hexVal (c : Char) : Option Nat :=
  if 48 ≤ c.toNat ∧ c.toNat ≤ 57 then some (c.toNat - 48)
  else if 97 ≤ c.toNat ∧ c.toNat ≤ 102 then some (c.toNat - 87)
  else if 65 ≤ c.toNat ∧ c.toNat ≤ 70 then some (c.toNat - 55)
  else none

/-- The two-character escapes of the JSON grammar. -/
def escMap (e : Char) : Option Char :=
  if e = '"' then some '"'
  else if e = '\\' then some '\\'
  else if e = '/' then some '/'
  else if e = 'b' then some (Char.ofNat 8)
  else if e = 'f' then some (Char.ofNat 12)
  else if e = 'n' then some (Char.ofNat 10)
  else if e = 'r' then some (Char.ofNat 13)
  else if e = 't' then some (Char.ofNat 9)
  else none

/-- Read four hexadecimal digits as a code unit. -/
def readHex4 : List Char → Option (Nat × List Char)
  | h1 :: h2 :: h3 :: h4 :: t =>
    match hexVal h1, hexVal h2, hexVal h3, hexVal h4 with
    | some d1, some d2, some d3, some d4 => some (d1 * 4096 + d2 * 256 + d3 * 16 + d4, t)
    | _, _, _, _ => none
  | _ => none

/-- After a high surrogate, read the following `\uXXXX` low surrogate. -/
def decodeLowSurrogate : List Char → Option (Nat × List Char)
  | b1 :: b2 :: t =>
    if b1 = '\\' ∧ b2 = 'u' then
      match readHex4 t with
      | some (code2, t2) =>
        if 56320 ≤ code2 ∧ code2 ≤ 57343 then some (code2, t2) else none
      | none => none
    else none
  | _ => none

/-- Decode one escape unit after a backslash: a two-character escape, a
`\uXXXX` code unit, or a surrogate pair; returns the character and the
remaining input.  Not recursive. -/
def decodeEscUnit : List Char → Option (Char × List Char)
  | [] => none
  | e :: t2 =>
    if e = 'u' then
      match readHex4 t2 with
      | some (code, t3) =>
        if 55296 ≤ code ∧ code ≤ 56319 then
          match decodeLowSurrogate t3 with
          | some (code2, t4) =>
            some (Char.ofNat (65536 + (code - 55296) * 1024 + (code2 - 56320)), t4)
          | none => none
        else some (Char.ofNat code, t3)
      | none => none
    else
      match escMap e with
      | some ch => some (ch, t2)
      | none => none

/-- Parse a JSON string body after the opening quote: literal characters,
escapes via `decodeEscUnit`, until the closing quote.  The fuel only has
to exceed the number of consumed characters; callers pass the input
length plus one, which always suffices because every step consumes at
least one character. -/
def parseStringBody : Nat → List Char → Option (List Char × List Char)
  | 0, _ => none
  | fuel + 1, input =>
    match input with
    | [] => none
    | c :: t =>
      if c = '"' then some ([], t)
      else if c = '\\' then
        match decodeEscUnit t with
        | some (ch, t2) =>
          match parseStringBody fuel t2 with
          | some (s, r) => some (ch :: s, r)
          | none => none
        | none => none
      else
        match parseStringBody fuel t with
        | some (s, r) => some (c :: s, r)
        | none => none

/-- Dispatch on the first significant character of a value.  The array
and object sub-parsers are passed in by the fueled driver below. -/
def parseValDispatch (pe : List Char → Option (List JsonVal × List Char))
    (pm : List Char → Option (List (String × JsonVal) × List Char))
    (c : Char) (rest : List Char) : Option (JsonVal × List Char) :=
  if c = 'n' then
    match rest with
    | 'u' :: 'l' :: 'l' :: r => some (.null, r)
    | _ => none
  else if c = 't' then
    match rest with
    | 'r' :: 'u' :: 'e' :: r => some (.bool true, r)
    | _ => none
  else if c = 'f' then
    match rest with
    | 'a' :: 'l' :: 's' :: 'e' :: r => some (.bool false, r)
    | _ => none
  else if c = '"' then
    match parseStringBody (rest.length + 1) rest with
    | some (s, r) => some (.str (String.mk s), r)
    | none => none
  else if c = '-' then
    match rest with
    | d :: r2 =>
      if isDigitCh d then parseNumberGo true d r2
      else
        match d :: r2 with
        | 'I' :: 'n' :: 'f' :: 'i' :: 'n' :: 'i' :: 't' :: 'y' :: r =>
          some (.fnum (.inf true), r)
        | _ => none
    | [] => none
  else if isDigitCh c then parseNumberGo false c rest
  else if c = 'N' then
    match rest with
    | 'a' :: 'N' :: r => some (.fnum .nan, r)
    | _ => none
  else if c = 'I' then
    match rest with
    | 'n' :: 'f' :: 'i' :: 'n' :: 'i' :: 't' :: 'y' :: r => some (.fnum (.inf false), r)
    | _ => none
  else if c = '[' then
    match skipWs rest with
    | b :: r2 =>
      if b = ']' then some (.arr [], r2)
      else
        match pe (b :: r2) with
        | some (xs, r3) => some (.arr xs, r3)
        | none => none
    | [] => none
  else if c = jLB then
    match skipWs rest with
    | b :: r2 =>
      if b = jRB then some (.obj [], r2)
      else
        match pm (b :: r2) with
        | some (fs, r3) => some (.obj fs, r3)
        | none => none
    | [] => none
  else none

/-- Continue a non-empty array after one parsed element: a comma and more
elements, or the closing bracket. -/
def parseElemsAfter (pe : List Char → Option (List JsonVal × List Char))
    (v : JsonVal) (r : List Char) : Option (List JsonVal × List Char) :=
  match skipWs r with
  | c :: r2 =>
    if c = ',' then
      match pe r2 with
      | some (vs, r3) => some (v :: vs, r3)
      | none => none
    else if c = ']' then some ([v], r2)
    else none
  | [] => none

/-- Continue an object member after its key: colon, value, then a comma
and more members or the closing brace. -/
def parseMembersKV (pv : List Char → Option (JsonVal × List Char))
    (pm : List Char → Option (List (String × JsonVal) × List Char))
    (k : List Char) (r2 : List Char) : Option (List (String × JsonVal) × List Char) :=
  match skipWs r2 with
  | d :: r3 =>
    if d = ':' then
      match pv r3 with
      | some (v, r4) =>
        match skipWs r4 with
        | e :: r5 =>
          if e = ',' then
            match pm r5 with
            | some (fs, r6) => some ((String.mk k, v) :: fs, r6)
            | none => none
          else if e = jRB then some ([(String.mk k, v)], r5)
          else none
        | [] => none
      | none => none
    else none
  | [] => none

mutual

/-- Parse one JSON value (after skipping leading whitespace). -/
def parseVal : Nat → List Char → Option (JsonVal × List Char)
  | 0, _ => none
  | fuel + 1, input =>
    match skipWs input with
    | [] => none
    | c :: rest => parseValDispatch (parseElems fuel) (parseMembers fuel) c rest

/-- Parse the elements of a non-empty array up to and including the
closing bracket. -/
def parseElems : Nat → List Char → Option (List JsonVal × List Char)
  | 0, _ => none
  | fuel + 1, input =>
    match parseVal fuel input with
    | some (v, r) => parseElemsAfter (parseElems fuel) v r
    | none => none

/-- Parse the members of a non-empty object up to and including the
closing brace. -/
def parseMembers : Nat → List Char → Option (List (String × JsonVal) × List Char)
  | 0, _ => none
  | fuel + 1, input =>
    match skipWs input with
    | c :: r =>
      if c = '"' then
        match parseStringBody (r.length + 1) r with
        | some (k, r2) => parseMembersKV (parseVal fuel) (parseMembers fuel) k r2
        | none => none
      else none
    | [] => none

end

/-- Model of `json.loads` on a character sequence: parse one value with
sufficient fuel and require the remainder to be whitespace only. -/
def jsonLoads (cs : List Char) : Option JsonVal :=
  match parseVal (cs.length + 1) cs with
  | some (v, rest) => if skipWs rest = [] then some v else none
  | none => none

mutual

/-- The node-count measure driving the parser fuel. -/
def sizeVal : JsonVal → Nat
  | .null => 1
  | .bool _ => 1
  | .num _ => 1
  | .fnum _ => 1
  | .str _ => 1
  | .arr l => 1 + sizeElems l
  | .obj fs => 1 + sizeFields fs

/-- Fuel measure of array elements. -/
def sizeElems : List JsonVal → Nat
  | [] => 1
  | x :: t => sizeVal x + sizeElems t

/-- Fuel measure of object fields. -/
def sizeFields : List (String × JsonVal) → Nat
  | [] => 1
  | kv :: t => sizeVal kv.2 + sizeFields t

end

/-- Whether an embedded float is in canonical decimal form — the single
shortest decimal denoting the value (what an actual Python float maps
to): a nonzero mantissa is not divisible by ten, zero carries exponent
zero. -/
def PyFloat.canonicalRep : PyFloat → Bool
  | .finite _ m e => (m % 10 != 0 || m == 0) && (m != 0 || e == 0)
  | _ => true

mutual

/-- Every float in the document is in canonical decimal form. -/
def floatsOkVal : JsonVal → Bool
  | .fnum fl => fl.canonicalRep
  | .arr l => floatsOkElems l
  | .obj fs => floatsOkFields fs
  | _ => true

/-- Canonical floats in every array element. -/
def floatsOkElems : List JsonVal → Bool
  | [] => true
  | x :: t => floatsOkVal x && floatsOkElems t

/-- Canonical floats in every field value. -/
def floatsOkFields : List (String × JsonVal) → Bool
  | [] => true
  | kv :: t => floatsOkVal kv.2 && floatsOkFields t

end

/-- The characters that may legitimately follow a serialized value inside
a frame produced by `dumpsVal`: nothing, a comma, or a closing bracket or
brace. -/
def boundaryHead : List Char → Prop
  | [] => True
  | c :: _ => c = ',' ∨ c = ']' ∨ c = jRB

/-- A list whose head (if any) is not a digit. -/
def headNotDigit : List Char → Prop
  | [] => True
  | c :: _ => isDigitCh c = false

/-- The possible first characters of a serialized JSON value. -/
def goodHead (c : Char) : Prop :=
  c = 'n' ∨ c = 't' ∨ c = 'f' ∨ c = '"' ∨ c = '-' ∨ isDigitCh c = true ∨ c = '[' ∨ c = jLB ∨
    c = 'N' ∨ c = 'I'

/-! ## Wire framing (shipper.send_to_carrier / bridge._handle_carrier_connection)

The shipper sends `len(body).to_bytes(4, 'big')` followed by the UTF-8
bytes of `json.dumps(payload)`; the bridge reads the four-byte prefix,
then exactly that many body bytes, decodes UTF-8 strictly and parses the
JSON. -/

/-- `int.to_bytes(4, 'big')` for a length below `2^32`. -/
def toBE4 (n : Nat) : List Nat :=
  [n / 16777216 % 256, n / 65536 % 256, n / 256 % 256, n % 256]

/-- `int.from_bytes(_, 'big')` on four bytes. -/
def fromBE4 (b0 b1 b2 b3 : Nat) : Nat :=
  b0 * 16777216 + b1 * 65536 + b2 * 256 + b3

/-- One step of CPython's strict `utf-8` codec: decode the scalar value
led by byte `b`, rejecting invalid lead bytes, truncated sequences,
overlong forms, surrogates and code points beyond `0x10FFFF`. -/
def utf8DecodeChar (b : Nat) (rest : List Nat) : Option (Nat × List Nat) :=
  if b < 128 then some (b, rest)
  else if 194 ≤ b ∧ b ≤ 223 then
    match rest with
    | b2 :: r =>
      if 128 ≤ b2 ∧ b2 ≤ 191 then some ((b - 192) * 64 + (b2 - 128), r) else none
    | [] => none
  else if 224 ≤ b ∧ b ≤ 239 then
    match rest with
    | b2 :: b3 :: r =>
      if (if b = 224 then 160 ≤ b2 ∧ b2 ≤ 191
          else if b = 237 then 128 ≤ b2 ∧ b2 ≤ 159
          else 128 ≤ b2 ∧ b2 ≤ 191) ∧ 128 ≤ b3 ∧ b3 ≤ 191 then
        some ((b - 224) * 4096 + (b2 - 128) * 64 + (b3 - 128), r)
      else none
    | _ => none
  else if 240 ≤ b ∧ b ≤ 244 then
    match rest with
    | b2 :: b3 :: b4 :: r =>
      if (if b = 240 then 144 ≤ b2 ∧ b2 ≤ 191
          else if b = 244 then 128 ≤ b2 ∧ b2 ≤ 143
          else 128 ≤ b2 ∧ b2 ≤ 191) ∧ 128 ≤ b3 ∧ b3 ≤ 191 ∧ 128 ≤ b4 ∧ b4 ≤ 191 then
        some ((b - 240) * 262144 + (b2 - 128) * 4096 + (b3 - 128) * 64 + (b4 - 128), r)
      else none
    | _ => none
  else none

/-- Fueled driver of the strict UTF-8 decoder (each step consumes at
least one byte, so the byte count is enough fuel). -/
def utf8DecodeAux : Nat → List Nat → Option (List Char)
  | _, [] => some []
  | 0, _ :: _ => none
  | fuel + 1, b :: rest =>
    match utf8DecodeChar b rest with
    | some (n, r) =>
      match utf8DecodeAux fuel r with
      | some cs => some (Char.ofNat n :: cs)
      | none => none
    | none => none

/-- Model of `bytes.decode('utf-8')`: `none` is `UnicodeDecodeError`. -/
def utf8Decode (bs : List Nat) : Option (List Char) :=
  utf8DecodeAux bs.length bs

/-- The frame emitted by `ShipperBridge.send_to_carrier`: four-byte
big-endian length prefix, then the UTF-8 bytes of the JSON body. -/
def send_to_carrier_frame (payload : JsonVal) : List Nat :=
  toBE4 (utf8Encode (dumpsVal payload)).length ++ utf8Encode (dumpsVal payload)

/-- The wire responses a connection can carry. -/
inductive WireResp
  | ack
  | nack
deriving DecidableEq

/-- The frame-decoding portion of `_handle_carrier_connection`: read the
four-byte prefix (fewer than four bytes: silent return), read exactly
`size` body bytes (fewer available: failure), decode UTF-8 and parse
JSON. -/
def decode_frame (data : List Nat) : Option JsonVal :=
  match data with
  | b0 :: b1 :: b2 :: b3 :: body =>
    if body.length < fromBE4 b0 b1 b2 b3 then none
    else
      match utf8Decode (body.take (fromBE4 b0 b1 b2 b3)) with
      | none => none
      | some chars => jsonLoads chars
  | _ => none

/-- Model of `_handle_carrier_connection` on the byte stream of one
connection: a short length prefix returns silently; a short body answers
`NACK`; a body that is not valid UTF-8 raises `UnicodeDecodeError`, which
the `except json.JSONDecodeError` clause does not catch, so the outer
handler swallows it with no response; a non-JSON body answers `NACK`;
otherwise the delivery is processed and answered `ACK`/`NACK` by its
outcome. -/
def handle_carrier_connection (trusted : List String) (sap : JsonVal → Option String)
    (reachable : Bool) (now : String) (st : BridgeState) (data : List Nat) :
    BridgeState × Option WireResp :=
  match data with
  | b0 :: b1 :: b2 :: b3 :: body =>
    if body.length < fromBE4 b0 b1 b2 b3 then (st, some WireResp.nack)
    else
      match utf8Decode (body.take (fromBE4 b0 b1 b2 b3)) with
      | none => (st, none)
      | some chars =>
        match jsonLoads chars with
        | none => (st, some WireResp.nack)
        | some payload =>
          ((process_delivery trusted sap reachable now st payload).1,
            some (if (process_delivery trusted sap reachable now st payload).2
              then WireResp.ack else WireResp.nack))
  | _ => (st, none)

/-- C1, counterexample: a payload from the trusted shipper `SHIPPER001`
validates, and the same payload with one byte of the detached signature
flipped (final `A` replaced by `B`) still validates: the verifier never
inspects the signature bytes, so flipping a signature byte does not make
`validate_signature` return `false`. -/
theorem validate_signature_flip_counterexample :
    validate_signature defaultTrusted (sigPayload "SHIPPER001" "RSA-SHA256" "dGVzdA==" []) = true ∧
    validate_signature defaultTrusted (sigPayload "SHIPPER001" "RSA-SHA256" "dGVzdB==" []) = true := by
  exact ⟨rfl, rfl⟩

/-- C1, amended: `SignatureValidator.validate_signature` depends on the
signature only through its truthiness.  For a payload carrying a shipper
id, an algorithm string and a signature string, the result is exactly
"the id is non-empty and trusted, and algorithm and signature are
non-empty" — the signature bytes are never verified, so altering them
cannot flip the outcome. -/
theorem validate_signature_ignores_signature_bytes
    (trusted : List String) (sid alg sig : String) (rest : List (String × JsonVal)) :
    validate_signature trusted (sigPayload sid alg sig rest) =
      ((sid != "") && trusted.contains sid && (alg != "") && (sig != "")) := by
  cases hsid : (sid != "") <;> cases htr : trusted.contains sid <;>
    first
    | (have hmem : sid ∉ trusted := by simpa using htr
       simp +decide [validate_signature, sigPayload, runBoolFalse, memTrusted, pyGetD,
         pyGetOpt, lookupField, truthy, truthyOpt, Bind.bind, Except.bind, pure,
         Except.pure, hsid, htr, hmem])
    | (have hmem : sid ∈ trusted := by simpa using htr
       simp +decide [validate_signature, sigPayload, runBoolFalse, memTrusted, pyGetD,
         pyGetOpt, lookupField, truthy, truthyOpt, Bind.bind, Except.bind, pure,
         Except.pure, hsid, htr, hmem])

/-- C8: a payload whose claimed sender id is a string absent from the
trusted registry never validates, whatever the signature contains. -/
theorem untrusted_sender_rejected
    (trusted : List String) (payload : JsonVal) (s : String)
    (hsender : claimedSender payload = some (.str s))
    (huntrusted : trusted.contains s = false) :
    validate_signature trusted payload = false := by
  unfold claimedSender at hsender
  unfold validate_signature runBoolFalse
  cases payload with
  | obj fs =>
    simp only [pyGetD] at hsender ⊢
    cases hse : (lookupField fs "shipper_erp").getD (.obj []) with
    | obj sefs =>
      simp only [hse, pyGetOpt] at hsender ⊢
      cases ht : truthy ((lookupField fs "digital_signature").getD (.obj [])) <;>
        cases h : (s != "") <;>
        simp_all [Bind.bind, Except.bind, truthyOpt, memTrusted,
          pure, Except.pure, truthy]
    | null => simp [hse, pyGetOpt] at hsender
    | bool b => simp [hse, pyGetOpt] at hsender
    | num n => simp [hse, pyGetOpt] at hsender
    | fnum fl => simp [hse, pyGetOpt] at hsender
    | str t => simp [hse, pyGetOpt] at hsender
    | arr l => simp [hse, pyGetOpt] at hsender
  | null => simp [pyGetD] at hsender
  | bool b => simp [pyGetD] at hsender
  | num n => simp [pyGetD] at hsender
  | fnum fl => simp [pyGetD] at hsender
  | str t => simp [pyGetD] at hsender
  | arr l => simp [pyGetD] at hsender

/-- Witness for C8 at a concrete unknown sender. -/
theorem untrusted_sender_rejected_witness :
    claimedSender (sigPayload "SHIPPER999" "RSA-SHA256" "dGVzdA==" []) =
      some (.str "SHIPPER999") ∧
    defaultTrusted.contains "SHIPPER999" = false ∧
    validate_signature defaultTrusted (sigPayload "SHIPPER999" "RSA-SHA256" "dGVzdA==" []) = false :=
  ⟨rfl, rfl, untrusted_sender_rejected defaultTrusted _ "SHIPPER999" rfl rfl⟩

mutual

/-- Boolean equality on JSON values is reflexive. -/
theorem beqVal_refl (v : JsonVal) : JsonVal.beqVal v v = true := by
  cases v with
  | null => rfl
  | bool b => simp [JsonVal.beqVal]
  | num n => simp [JsonVal.beqVal]
  | fnum fl => simp [JsonVal.beqVal]
  | str s => simp [JsonVal.beqVal]
  | arr l => simp [JsonVal.beqVal, beqElems_refl l]
  | obj fs => simp [JsonVal.beqVal, beqFields_refl fs]

/-- Element-wise equality on JSON arrays is reflexive. -/
theorem beqElems_refl (l : List JsonVal) : JsonVal.beqElems l l = true := by
  cases l with
  | nil => rfl
  | cons x t => simp [JsonVal.beqElems, beqVal_refl x, beqElems_refl t]

/-- Field-wise equality on JSON objects is reflexive. -/
theorem beqFields_refl (fs : List (String × JsonVal)) : JsonVal.beqFields fs fs = true := by
  cases fs with
  | nil => rfl
  | cons kv t =>
    cases kv
    simp [JsonVal.beqFields, beqVal_refl, beqFields_refl t]

end

/-- Looking a key up right after upserting it yields the fresh row. -/
theorem lookupTx_upsertTx (l : List (JsonVal × TxRow)) (k : JsonVal) (r : TxRow) :
    lookupTx (upsertTx l k r) k = some r := by
  induction l with
  | nil => simp [upsertTx, lookupTx, beqVal_refl]
  | cons h t ih =>
    obtain ⟨k2, v⟩ := h
    by_cases hb : JsonVal.beqVal k2 k = true
    · simp [upsertTx, lookupTx, hb]
    · simp [upsertTx, lookupTx, hb, ih]

/-- Every entry of an upserted list is either the fresh row or an entry of
the original list. -/
theorem mem_upsertTx (l : List (JsonVal × TxRow)) (k : JsonVal) (r : TxRow) :
    ∀ e ∈ upsertTx l k r, e.2 = r ∨ e ∈ l := by
  induction l with
  | nil => simp [upsertTx]
  | cons h t ih =>
    obtain ⟨k2, v⟩ := h
    intro e he
    by_cases hb : JsonVal.beqVal k2 k = true
    · simp only [upsertTx, hb, if_true] at he
      rcases List.mem_cons.mp he with h1 | h2
      · left; rw [h1]
      · right; exact List.mem_cons_of_mem _ h2
    · simp only [upsertTx, hb, if_false] at he
      rcases List.mem_cons.mp he with h1 | h2
      · right; rw [h1]; exact List.mem_cons_self _ _
      · rcases ih e h2 with h3 | h4
        · left; exact h3
        · right; exact List.mem_cons_of_mem _ h4

/-- A found row belongs to the list. -/
theorem lookupTx_mem (l : List (JsonVal × TxRow)) (k : JsonVal) (r : TxRow)
    (h : lookupTx l k = some r) : ∃ k2, (k2, r) ∈ l := by
  induction l with
  | nil => simp [lookupTx] at h
  | cons hd t ih =>
    obtain ⟨k2, v⟩ := hd
    by_cases hb : JsonVal.beqVal k2 k = true
    · simp only [lookupTx, hb, if_true, Option.some.injEq] at h
      exact ⟨k2, by rw [h]; exact List.mem_cons_self _ _⟩
    · simp only [lookupTx, hb, if_false] at h
      obtain ⟨k3, hk3⟩ := ih h
      exact ⟨k3, List.mem_cons_of_mem _ hk3⟩

/-- Every transaction row present after a store carries either the freshly
stored payload or a payload already present before. -/
theorem store_transaction_mem (now : String) (db : DB) (p : JsonVal) :
    ∀ e ∈ (store_transaction now db p).1.transactions,
      e.2.payload = p ∨ e ∈ db.transactions := by
  intro e he
  unfold store_transaction at he
  split at he
  · exact Or.inr he
  · split at he
    · exact Or.inr he
    · simp only [log_audit] at he
      rcases mem_upsertTx _ _ _ e he with h1 | h2
      · exact Or.inl (by rw [h1])
      · exact Or.inr h2

/-- A status update never changes any stored payload: every row after the
update has the payload of some row before it. -/
theorem update_status_mem (now : String) (db : DB) (tid : JsonVal) (status : String) :
    ∀ e ∈ (update_transaction_status now db tid status).1.transactions,
      ∃ y ∈ db.transactions, e.2.payload = y.2.payload := by
  intro e he
  unfold update_transaction_status at he
  split at he
  · rename_i row hrow
    simp only [log_audit] at he
    rcases mem_upsertTx _ _ _ e he with h1 | h2
    · obtain ⟨k2, hk2⟩ := lookupTx_mem _ _ _ hrow
      exact ⟨(k2, row), hk2, by rw [h1]⟩
    · exact ⟨e, h2, rfl⟩
  · exact ⟨e, he, rfl⟩

/-- The database reached by one `process_delivery` call is the incoming
database, the incoming database after the store, or that after the store
and the `confirmed` status update — and in the latter two cases the
payload passed signature validation. -/
theorem process_delivery_db_cases (trusted : List String) (sap : JsonVal → Option String)
    (reachable : Bool) (now : String) (st : BridgeState) (p : JsonVal) :
    (process_delivery trusted sap reachable now st p).1.db = st.db ∨
    (validate_signature trusted p = true ∧
      ((process_delivery trusted sap reachable now st p).1.db =
          (store_transaction now st.db p).1 ∨
        ∃ tid, (process_delivery trusted sap reachable now st p).1.db =
          (update_transaction_status now (store_transaction now st.db p).1 tid "confirmed").1)) := by
  unfold process_delivery
  split
  · exact Or.inl rfl
  · split
    · exact Or.inl rfl
    · split
      · exact Or.inl rfl
      · rename_i hval
        have hv : validate_signature trusted p = true := by
          revert hval
          cases validate_signature trusted p <;> simp
        split
        · exact Or.inr ⟨hv, Or.inl rfl⟩
        · split
          · exact Or.inr ⟨hv, Or.inl rfl⟩
          · split
            · split
              · exact Or.inr ⟨hv, Or.inl rfl⟩
              · split
                · exact Or.inr ⟨hv, Or.inl rfl⟩
                · exact Or.inr ⟨hv, Or.inr ⟨_, rfl⟩⟩
            · exact Or.inr ⟨hv, Or.inl rfl⟩

/-- One `process_delivery` call preserves the store invariant that every
stored payload passed signature validation. -/
theorem process_delivery_preserves (trusted : List String) (sap : JsonVal → Option String)
    (reachable : Bool) (now : String) (st : BridgeState) (p : JsonVal)
    (h : ∀ e ∈ st.db.transactions, validate_signature trusted e.2.payload = true) :
    ∀ e ∈ (process_delivery trusted sap reachable now st p).1.db.transactions,
      validate_signature trusted e.2.payload = true := by
  intro e he
  rcases process_delivery_db_cases trusted sap reachable now st p with h1 | ⟨hv, h2 | ⟨tid, h3⟩⟩
  · rw [h1] at he
    exact h e he
  · rw [h2] at he
    rcases store_transaction_mem now st.db p e he with hp | hm
    · rw [hp]; exact hv
    · exact h e hm
  · rw [h3] at he
    obtain ⟨y, hy, hpy⟩ := update_status_mem now _ tid "confirmed" e he
    rcases store_transaction_mem now st.db p y hy with hp | hm
    · rw [hpy, hp]; exact hv
    · rw [hpy]; exact h y hm

/-- Running any list of deliveries preserves the store invariant. -/
theorem runDeliveries_preserves (trusted : List String) (sap : JsonVal → Option String)
    (reachable : Bool) (now : String) (subs : List JsonVal) (st : BridgeState)
    (h : ∀ e ∈ st.db.transactions, validate_signature trusted e.2.payload = true) :
    ∀ e ∈ (runDeliveries trusted sap reachable now subs st).db.transactions,
      validate_signature trusted e.2.payload = true := by
  induction subs generalizing st with
  | nil => exact h
  | cons p rest ih =>
    exact ih _ (process_delivery_preserves trusted sap reachable now st p h)

/-- C2: in every bridge state reachable from the empty store, each stored
transaction's payload passed signature validation against the trusted
registry at the time it was stored; and a submission whose signature
validation returns `false` leaves the state untouched and is answered
negatively — nothing is persisted. -/
theorem process_delivery_store_requires_valid_signature :
    (∀ (trusted : List String) (sap : JsonVal → Option String) (reachable : Bool)
        (now : String) (subs : List JsonVal) (e : JsonVal × TxRow),
        e ∈ (runDeliveries trusted sap reachable now subs emptyState).db.transactions →
        validate_signature trusted e.2.payload = true) ∧
    (∀ (trusted : List String) (sap : JsonVal → Option String) (reachable : Bool)
        (now : String) (st : BridgeState) (p : JsonVal),
        validate_signature trusted p = false →
        process_delivery trusted sap reachable now st p = (st, false)) := by
  constructor
  · intro trusted sap reachable now subs e he
    exact runDeliveries_preserves trusted sap reachable now subs emptyState
      (by intro x hx; simp [emptyState, emptyDB] at hx) e he
  · intro trusted sap reachable now st p hfail
    unfold process_delivery
    split
    · rfl
    · split
      · rfl
      · simp [hfail]

/-- Witness for C2 on a concrete delivery run. -/
theorem process_delivery_store_requires_valid_signature_witness :
    (JsonVal.str "TXN-1", demoRow) ∈
      (runDeliveries defaultTrusted demoSap true "T0" [demoPayload] emptyState).db.transactions ∧
    validate_signature defaultTrusted demoRow.payload = true := by
  have hm : (JsonVal.str "TXN-1", demoRow) ∈
      (runDeliveries defaultTrusted demoSap true "T0" [demoPayload] emptyState).db.transactions := by
    have he : (runDeliveries defaultTrusted demoSap true "T0" [demoPayload]
        emptyState).db.transactions = [(JsonVal.str "TXN-1", demoRow)] := rfl
    rw [he]
    exact List.mem_singleton.mpr rfl
  exact ⟨hm, process_delivery_store_requires_valid_signature.1
    defaultTrusted demoSap true "T0" [demoPayload] (JsonVal.str "TXN-1", demoRow) hm⟩

/-- C3, counterexample: requesting the backward transition
`delivered → initiated` on a stored transaction is not rejected with
`InvalidTransition` — `update_transaction_status` reports success and the
stored status actually becomes `initiated`. -/
theorem update_status_backward_applied_counterexample :
    (update_transaction_status "T2" t1db (.str "T1") "initiated").2 = true ∧
    lookupTx (update_transaction_status "T2" t1db (.str "T1") "initiated").1.transactions
        (.str "T1") =
      some { t1row with status := JsonVal.str "initiated", processedTimestamp := some "T2" } :=
  ⟨rfl, rfl⟩

/-- C3, amended: `update_transaction_status` consults no transition table
at all.  For every stored transaction it accepts every requested status —
forward, backward or skipping — reports success, and overwrites the stored
status; it returns `false` only when the transaction id is absent.  No
`InvalidTransition` outcome exists in the code. -/
theorem update_transaction_status_unconditional
    (now : String) (db : DB) (tid : JsonVal) (status : String) :
    (∀ row, lookupTx db.transactions tid = some row →
      (update_transaction_status now db tid status).2 = true ∧
      lookupTx (update_transaction_status now db tid status).1.transactions tid =
        some { row with status := JsonVal.str status, processedTimestamp := some now }) ∧
    (lookupTx db.transactions tid = none →
      update_transaction_status now db tid status = (db, false)) := by
  constructor
  · intro row h
    unfold update_transaction_status
    simp only [h]
    exact ⟨by simp, by simp [log_audit, lookupTx_upsertTx]⟩
  · intro h
    unfold update_transaction_status
    simp only [h]

/-- Witness for C3's amended statement on the concrete store. -/
theorem update_transaction_status_unconditional_witness :
    (update_transaction_status "T2" t1db (.str "T1") "in_transit").2 = true ∧
    lookupTx (update_transaction_status "T2" t1db (.str "T1") "in_transit").1.transactions
        (.str "T1") =
      some { t1row with status := JsonVal.str "in_transit", processedTimestamp := some "T2" } :=
  (update_transaction_status_unconditional "T2" t1db (.str "T1") "in_transit").1 t1row rfl

/-- C4, counterexample: storing a different payload under an id that is
already present is not rejected: the second `store_transaction` succeeds
and the stored record now holds the second payload, so the original
record was mutated. -/
theorem store_transaction_conflict_overwrites_counterexample :
    get_transaction (store_transaction "T0" emptyDB payA).1 (.str "TXN-9") = some payA ∧
    (store_transaction "T1" (store_transaction "T0" emptyDB payA).1 payB).2 = true ∧
    get_transaction (store_transaction "T1" (store_transaction "T0" emptyDB payA).1 payB).1
        (.str "TXN-9") = some payB ∧
    payA ≠ payB := by
  refine ⟨rfl, rfl, rfl, ?_⟩
  intro h
  simp [payA, payB] at h

/-- C4, amended: `store_transaction` is `INSERT OR REPLACE`: a successful
store always leaves the incoming payload as the record under its id,
whatever was stored there before, and whether a store succeeds depends
only on the payload itself, never on the existing record — a conflicting
resubmission is therefore accepted and overwrites the first record. -/
theorem store_transaction_replaces (now : String) (db : DB) (p : JsonVal) (tid : JsonVal)
    (htid : pyIndex p "transaction_id" = Except.ok tid) :
    ((store_transaction now db p).2 = true →
      get_transaction (store_transaction now db p).1 tid = some p) ∧
    (∀ now2 db2, (store_transaction now db p).2 = (store_transaction now2 db2 p).2) := by
  constructor
  · intro hok
    unfold store_transaction
    simp only [htid]
    cases hx : storeExtract p with
    | error e =>
      exfalso
      unfold store_transaction at hok
      simp only [htid, hx] at hok
      exact Bool.false_ne_true hok
    | ok t =>
      obtain ⟨status, shipperId, orderNumber, carrier, totalValue⟩ := t
      simp only [hx]
      simp [get_transaction, log_audit, lookupTx_upsertTx]
  · intro now2 db2
    unfold store_transaction
    simp only [htid]
    cases hx : storeExtract p with
    | error e => rfl
    | ok t =>
      obtain ⟨status, shipperId, orderNumber, carrier, totalValue⟩ := t
      rfl

/-- Witness for C4's amended statement: the conflicting resubmission of
`payB` over `payA` leaves `payB` as the stored record. -/
theorem store_transaction_replaces_witness :
    pyIndex payB "transaction_id" = Except.ok (.str "TXN-9") ∧
    get_transaction (store_transaction "T1" (store_transaction "T0" emptyDB payA).1 payB).1
        (.str "TXN-9") = some payB :=
  ⟨rfl, (store_transaction_replaces "T1" (store_transaction "T0" emptyDB payA).1 payB
      (.str "TXN-9") rfl).1 rfl⟩

/-- One `_notify_shipper_completion` call makes at most one outbound
connection attempt. -/
theorem notify_shipper_completion_le_one (r : Bool) (p : JsonVal) :
    notify_shipper_completion r p ≤ 1 := by
  unfold notify_shipper_completion
  split <;> simp

/-- C5, counterexample: with the downstream completion listener
unreachable (`reachable = false`), processing a valid delivery still
reports success, leaves the transaction stored with status `confirmed`
(never `FAILED`), makes exactly one notification attempt — no retries —
and the audit trail records no retry entries at all, only the store and
the status update. -/
theorem notify_failure_counterexample :
    (process_delivery defaultTrusted demoSap false "T0" emptyState demoPayload).2 = true ∧
    (lookupTx (process_delivery defaultTrusted demoSap false "T0" emptyState
        demoPayload).1.db.transactions (.str "TXN-1")).map (fun r => r.status) =
      some (JsonVal.str "confirmed") ∧
    (process_delivery defaultTrusted demoSap false "T0" emptyState
        demoPayload).1.completionAttempts = 1 ∧
    (process_delivery defaultTrusted demoSap false "T0" emptyState
        demoPayload).1.db.auditLog.map (fun e => e.action) =
      ["transaction_stored", "status_updated"] :=
  ⟨rfl, rfl, rfl, rfl⟩

/-- C5, amended: the relay makes a single completion-notification attempt
with no retries, no backoff and no `FAILED` marking: the entire outcome of
`process_delivery` — returned flag and resulting state — is identical
whether the downstream listener is reachable or not, and the attempt count
grows by at most one.  (A failed notification is only logged; the stored
record, already at status `confirmed`, is never rolled back.) -/
theorem process_delivery_single_notification_attempt
    (trusted : List String) (sap : JsonVal → Option String) (now : String)
    (st : BridgeState) (p : JsonVal) (r1 r2 : Bool) :
    process_delivery trusted sap r1 now st p = process_delivery trusted sap r2 now st p ∧
    (process_delivery trusted sap r1 now st p).1.completionAttempts ≤
      st.completionAttempts + 1 := by
  constructor
  · unfold process_delivery notify_shipper_completion
    rfl
  · unfold process_delivery
    split
    · exact Nat.le_succ_of_le (Nat.le_refl _)
    · split
      · exact Nat.le_succ_of_le (Nat.le_refl _)
      · split
        · exact Nat.le_succ_of_le (Nat.le_refl _)
        · split
          · exact Nat.le_succ_of_le (Nat.le_refl _)
          · split
            · exact Nat.le_succ_of_le (Nat.le_refl _)
            · split
              · split
                · exact Nat.le_succ_of_le (Nat.le_refl _)
                · split
                  · exact Nat.le_succ_of_le (Nat.le_refl _)
                  · exact Nat.add_le_add_left (notify_shipper_completion_le_one _ _) _
              · exact Nat.le_succ_of_le (Nat.le_refl _)

/-- Decoding inverts the alphabet map on every sextet. -/
theorem b64Val_b64Char : ∀ n, n < 64 → b64Val (b64Char n) = some n := by decide

/-- No alphabet character is the padding character. -/
theorem b64Char_ne_pad : ∀ n, n < 64 → b64Char n ≠ '=' := by decide

/-- Base64 decoding inverts encoding on byte lists. -/
theorem b64_roundtrip (bs : List Nat) (h : ∀ b ∈ bs, b < 256) :
    b64Decode (b64Encode bs) = .ok bs := by
  induction bs using b64Encode.induct with
  | case1 => rfl
  | case2 a =>
    have ha : a < 256 := h a (by simp)
    have h1 : a / 4 < 64 := by omega
    have h2 : a % 4 * 16 < 64 := by omega
    simp only [b64Encode, b64Decode, b64Val_b64Char _ h1, b64Val_b64Char _ h2]
    simp only [if_pos rfl, and_self, if_pos]
    have e1 : a / 4 * 4 + a % 4 * 16 / 16 = a := by omega
    rw [e1]
  | case3 a b =>
    have ha : a < 256 := h a (by simp)
    have hb : b < 256 := h b (by simp)
    have h1 : a / 4 < 64 := by omega
    have h2 : a % 4 * 16 + b / 16 < 64 := by omega
    have h3 : b % 16 * 4 < 64 := by omega
    simp only [b64Encode, b64Decode, b64Val_b64Char _ h1, b64Val_b64Char _ h2,
      b64Val_b64Char _ h3]
    simp only [if_neg (b64Char_ne_pad _ h3), if_pos rfl, if_pos]
    have e1 : a / 4 * 4 + (a % 4 * 16 + b / 16) / 16 = a := by omega
    have e2 : (a % 4 * 16 + b / 16) % 16 * 16 + b % 16 * 4 / 4 = b := by omega
    rw [e1, e2]
  | case4 a b c rest ih =>
    have ha : a < 256 := h a (by simp)
    have hb : b < 256 := h b (by simp)
    have hc : c < 256 := h c (by simp)
    have ht : ∀ x ∈ rest, x < 256 := by
      intro x hx
      exact h x (by simp [hx])
    have h1 : a / 4 < 64 := by omega
    have h2 : a % 4 * 16 + b / 16 < 64 := by omega
    have h3 : b % 16 * 4 + c / 64 < 64 := by omega
    have h4 : c % 64 < 64 := by omega
    simp only [b64Encode, b64Decode, b64Val_b64Char _ h1, b64Val_b64Char _ h2,
      b64Val_b64Char _ h3, b64Val_b64Char _ h4]
    simp only [if_neg (b64Char_ne_pad _ h3), if_neg (b64Char_ne_pad _ h4), ih ht]
    have e1 : a / 4 * 4 + (a % 4 * 16 + b / 16) / 16 = a := by omega
    have e2 : (a % 4 * 16 + b / 16) % 16 * 16 + (b % 16 * 4 + c / 64) / 4 = b := by omega
    have e3 : (b % 16 * 4 + c / 64) % 4 * 64 + c % 64 = c := by omega
    rw [e1, e2, e3]

/-- C7: signing a payload over its canonical serialization with a private
key and verifying with the matching public key succeeds.  The key match
is the hypothesis `hkeys` (RSA-PSS correctness: what was signed with the
private key verifies under the public key); the signature bytes are real
bytes (`hbytes`). -/
theorem verify_create_signature_roundtrip
    (sign : List Nat → List Nat) (verifyPrim : List Nat → List Nat → Bool) (data : JsonVal)
    (hkeys : ∀ msg, verifyPrim (sign msg) msg = true)
    (hbytes : ∀ b ∈ sign (utf8Encode (canonDumps data)), b < 256) :
    verify_digital_signature verifyPrim data (create_digital_signature sign data) = true := by
  unfold verify_digital_signature create_digital_signature
  rw [b64_roundtrip _ hbytes]
  exact hkeys _

/-- Every UTF-8 byte is below 256. -/
theorem utf8Encode_lt_256 (cs : List Char) : ∀ b ∈ utf8Encode cs, b < 256 := by
  intro b hb
  unfold utf8Encode at hb
  simp only [List.mem_flatten, List.mem_map] at hb
  obtain ⟨l, ⟨c, _, hc⟩, hbl⟩ := hb
  have hval : c.toNat < 1114112 := by
    show c.val.toNat < 1114112
    rcases c.valid with hv | ⟨hv1, hv2⟩
    · omega
    · exact hv2
  rw [← hc] at hbl
  unfold utf8EncodeChar at hbl
  split at hbl
  · simp at hbl; omega
  · split at hbl
    · simp at hbl; rcases hbl with h | h <;> omega
    · split at hbl
      · simp at hbl; rcases hbl with h | h | h <;> omega
      · simp at hbl; rcases hbl with h | h | h | h <;> omega

/-- Witness for C7 with identity primitives on a concrete payload. -/
theorem verify_create_signature_roundtrip_witness :
    verify_digital_signature (fun (s m : List Nat) => s == m) (.obj [("a", .num 1)])
      (create_digital_signature (fun (b : List Nat) => b) (.obj [("a", .num 1)])) = true :=
  verify_create_signature_roundtrip (fun b => b) (fun s m => s == m)
    (.obj [("a", .num 1)]) (fun msg => by simp) (utf8Encode_lt_256 _)

/-- C10: `validate_secure_payload` gates acceptance on the MD5 checksum
before ever consulting the signature: a security section without a
`checksum` field fails with `Missing checksum`; a checksum that does not
match the MD5 of the payload's canonical JSON fails with
`Checksum verification failed`, whatever the signature verifier would
say; and an accepted payload necessarily carried a matching checksum and
a verifying digital signature. -/
theorem validate_secure_payload_checksum_gate
    (md5hex : List Nat → List Char) (verifyPrim : List Nat → List Nat → Bool)
    (fs sfs : List (String × JsonVal))
    (hsec : lookupField fs "security" = some (.obj sfs)) :
    (lookupField sfs "checksum" = none →
      validate_secure_payload md5hex verifyPrim (.obj fs) = (false, "Missing checksum")) ∧
    (∀ cks : String, lookupField sfs "checksum" = some (.str cks) →
      verify_checksum md5hex (.obj fs) cks.data = false →
      validate_secure_payload md5hex verifyPrim (.obj fs) =
        (false, "Checksum verification failed")) ∧
    (∀ r, validate_secure_payload md5hex verifyPrim (.obj fs) = (true, r) →
      ∃ cks : String, lookupField sfs "checksum" = some (.str cks) ∧
        verify_checksum md5hex (.obj fs) cks.data = true ∧
        ∃ dss : String, lookupField sfs "digital_signature" = some (.str dss) ∧
          verify_digital_signature verifyPrim (.obj fs) dss.data = true) := by
  refine ⟨?_, ?_, ?_⟩
  · intro hck
    unfold validate_secure_payload
    simp only [hsec, hck]
  · intro cks hck hbad
    unfold validate_secure_payload
    simp only [hsec, hck, hbad]
    simp
  · intro r hacc
    unfold validate_secure_payload at hacc
    simp only [hsec] at hacc
    cases hck : lookupField sfs "checksum" with
    | none => simp [hck] at hacc
    | some ck =>
      simp only [hck] at hacc
      cases ck with
      | str cks =>
        refine ⟨cks, rfl, ?_⟩
        cases hv : verify_checksum md5hex (.obj fs) cks.data with
        | false => simp [hv] at hacc
        | true =>
          refine ⟨rfl, ?_⟩
          simp only [hv, if_true] at hacc
          cases hds : lookupField sfs "digital_signature" with
          | none => simp [hds] at hacc
          | some ds =>
            simp only [hds] at hacc
            cases ds with
            | str dss =>
              refine ⟨dss, rfl, ?_⟩
              cases hvs : verify_digital_signature verifyPrim (.obj fs) dss.data with
              | false => simp [hvs] at hacc
              | true => rfl
            | null => simp at hacc
            | bool b => simp at hacc
            | num n => simp at hacc
            | fnum fl => simp at hacc
            | arr l => simp at hacc
            | obj l => simp at hacc
      | null => simp at hacc
      | bool b => simp at hacc
      | num n => simp at hacc
      | fnum fl => simp at hacc
      | arr l => simp at hacc
      | obj l => simp at hacc

/-- Witness for C10 on a concrete payload whose security section lacks a
checksum. -/
theorem validate_secure_payload_checksum_gate_witness :
    lookupField [("security", JsonVal.obj [])] "security" = some (.obj []) ∧
    lookupField ([] : List (String × JsonVal)) "checksum" = none ∧
    validate_secure_payload (fun _ => "D41D".data) (fun _ _ => true)
      (.obj [("security", .obj [])]) = (false, "Missing checksum") :=
  ⟨rfl, rfl, (validate_secure_payload_checksum_gate (fun _ => "D41D".data)
    (fun _ _ => true) [("security", JsonVal.obj [])] [] rfl).1 rfl⟩

/-- Every JSON value has positive size. -/
theorem sizeVal_pos (v : JsonVal) : 1 ≤ sizeVal v := by
  cases v <;> simp [sizeVal]

/-- Element lists have positive size. -/
theorem sizeElems_pos (l : List JsonVal) : 1 ≤ sizeElems l := by
  cases l with
  | nil => simp [sizeElems]
  | cons x t => simp [sizeElems]; have := sizeVal_pos x; omega

/-- Field lists have positive size. -/
theorem sizeFields_pos (l : List (String × JsonVal)) : 1 ≤ sizeFields l := by
  cases l with
  | nil => simp [sizeFields]
  | cons x t => simp [sizeFields]; have := sizeVal_pos x.2; omega

/-- Mapping a string through `String.mk` of its data is the identity. -/
theorem string_mk_data (s : String) : String.mk s.data = s := by
  cases s
  rfl

/-- `skipWs` leaves a string starting with a non-whitespace character
alone. -/
theorem skipWs_cons_of_not_ws (c : Char) (t : List Char) (h : isWsChar c = false) :
    skipWs (c :: t) = c :: t := by
  simp [skipWs, h]

/-- A space before the input is invisible to `parseVal`. -/
theorem parseVal_cons_ws (fuel : Nat) (x : List Char) :
    parseVal fuel (' ' :: x) = parseVal fuel x := by
  cases fuel with
  | zero => rfl
  | succ f =>
    show parseVal (f + 1) (' ' :: x) = parseVal (f + 1) x
    unfold parseVal
    have : skipWs (' ' :: x) = skipWs x := by simp [skipWs, isWsChar]
    rw [this]

/-- A space before the input is invisible to `parseElems`. -/
theorem parseElems_cons_ws (fuel : Nat) (x : List Char) :
    parseElems fuel (' ' :: x) = parseElems fuel x := by
  cases fuel with
  | zero => rfl
  | succ f =>
    show parseElems (f + 1) (' ' :: x) = parseElems (f + 1) x
    unfold parseElems
    rw [parseVal_cons_ws]

/-- A space before the input is invisible to `parseMembers`. -/
theorem parseMembers_cons_ws (fuel : Nat) (x : List Char) :
    parseMembers fuel (' ' :: x) = parseMembers fuel x := by
  cases fuel with
  | zero => rfl
  | succ f =>
    show parseMembers (f + 1) (' ' :: x) = parseMembers (f + 1) x
    unfold parseMembers
    have : skipWs (' ' :: x) = skipWs x := by simp [skipWs, isWsChar]
    rw [this]

/-- `hexVal` inverts `hexDigitChar` on each hex digit. -/
theorem hexVal_hexDigitChar : ∀ d, d < 16 → hexVal (hexDigitChar d) = some d := by decide

/-- Decoding a two-character escape unit. -/
theorem decodeEscUnit_twochar (e ch : Char) (t2 : List Char)
    (hne : ¬e = 'u') (hm : escMap e = some ch) :
    decodeEscUnit (e :: t2) = some (ch, t2) := by
  simp only [decodeEscUnit, if_neg hne, hm]

/-- `readHex4` inverts `hex4` below `0x10000`. -/
theorem readHex4_hex4 (n : Nat) (t : List Char) (h : n < 65536) :
    readHex4 (hex4 n ++ t) = some (n, t) := by
  have e1 : n / 4096 % 16 < 16 := by omega
  have e2 : n / 256 % 16 < 16 := by omega
  have e3 : n / 16 % 16 < 16 := by omega
  have e4 : n % 16 < 16 := by omega
  have ecode : n / 4096 % 16 * 4096 + n / 256 % 16 * 256 + n / 16 % 16 * 16 + n % 16 = n := by
    omega
  simp only [hex4, List.cons_append, List.nil_append, readHex4]
  simp only [hexVal_hexDigitChar _ e1, hexVal_hexDigitChar _ e2, hexVal_hexDigitChar _ e3,
    hexVal_hexDigitChar _ e4]
  rw [ecode]

/-- Decoding a `\uXXXX` unit outside the surrogate range. -/
theorem decodeEscUnit_u_bmp (n : Nat) (t3 : List Char) (hlt : n < 65536)
    (hns : ¬(55296 ≤ n ∧ n ≤ 56319)) :
    decodeEscUnit ('u' :: (hex4 n ++ t3)) = some (Char.ofNat n, t3) := by
  simp only [decodeEscUnit, if_pos rfl, readHex4_hex4 n t3 hlt]
  rw [if_neg hns, if_pos trivial]

/-- Decoding a surrogate-pair escape yields the combined code point. -/
theorem decodeEscUnit_u_pair (hi lo : Nat) (t4 : List Char)
    (hhi : 55296 ≤ hi ∧ hi ≤ 56319) (hlo : 56320 ≤ lo ∧ lo ≤ 57343) :
    decodeEscUnit ('u' :: (hex4 hi ++ '\\' :: 'u' :: (hex4 lo ++ t4))) =
      some (Char.ofNat (65536 + (hi - 55296) * 1024 + (lo - 56320)), t4) := by
  have hhiv : hi < 65536 := by omega
  have hlov : lo < 65536 := by omega
  simp only [decodeEscUnit, if_pos rfl, readHex4_hex4 _ _ hhiv]
  rw [if_pos hhi]
  simp only [decodeLowSurrogate, readHex4_hex4 _ _ hlov]
  rw [if_pos (And.intro trivial trivial), if_pos hlo, if_pos trivial]

/-- One literal step of the string-body parser. -/
theorem psb_step_lit (f : Nat) (c : Char) (tail : List Char)
    (h1 : ¬c = '"') (h2 : ¬c = '\\') :
    parseStringBody (f + 1) (c :: tail) =
      match parseStringBody f tail with
      | some (s, r) => some (c :: s, r)
      | none => none := by
  simp only [parseStringBody]
  rw [if_neg h1, if_neg h2]

/-- One escape step of the string-body parser. -/
theorem psb_step_esc (f : Nat) (tail t2 : List Char) (ch : Char)
    (hdec : decodeEscUnit tail = some (ch, t2)) :
    parseStringBody (f + 1) ('\\' :: tail) =
      match parseStringBody f t2 with
      | some (s, r) => some (ch :: s, r)
      | none => none := by
  simp only [parseStringBody]
  rw [hdec, if_pos trivial, if_neg (show ¬('\\' : Char) = '"' by decide)]

/-- Every escape expansion is non-empty. -/
theorem escChar_length_pos (c : Char) : 1 ≤ (escChar c).length := by
  unfold escChar
  repeat' split
  all_goals simp [hex4]

/-- The escape of an unexceptional printable ASCII character is itself. -/
theorem escChar_lit (c : Char) (h1 : ¬c = '\\') (h2 : ¬c = '"')
    (h3 : ¬c.toNat = 8) (h4 : ¬c.toNat = 12) (h5 : ¬c.toNat = 10)
    (h6 : ¬c.toNat = 13) (h7 : ¬c.toNat = 9)
    (h8 : ¬(c.toNat < 32 ∨ 126 < c.toNat)) : escChar c = [c] := by
  unfold escChar
  rw [if_neg h1, if_neg h2, if_neg h3, if_neg h4, if_neg h5, if_neg h6, if_neg h7, if_neg h8]

/-- The escape of a control or non-ASCII character in the basic plane. -/
theorem escChar_u (c : Char) (h1 : ¬c = '\\') (h2 : ¬c = '"')
    (h3 : ¬c.toNat = 8) (h4 : ¬c.toNat = 12) (h5 : ¬c.toNat = 10)
    (h6 : ¬c.toNat = 13) (h7 : ¬c.toNat = 9)
    (h8 : c.toNat < 32 ∨ 126 < c.toNat) (h9 : c.toNat < 65536) :
    escChar c = '\\' :: 'u' :: hex4 c.toNat := by
  unfold escChar
  rw [if_neg h1, if_neg h2, if_neg h3, if_neg h4, if_neg h5, if_neg h6, if_neg h7,
    if_pos h8, if_pos h9]

/-- The escape of an astral character is a surrogate pair. -/
theorem escChar_pair (c : Char) (h1 : ¬c = '\\') (h2 : ¬c = '"')
    (h3 : ¬c.toNat = 8) (h4 : ¬c.toNat = 12) (h5 : ¬c.toNat = 10)
    (h6 : ¬c.toNat = 13) (h7 : ¬c.toNat = 9)
    (h8 : c.toNat < 32 ∨ 126 < c.toNat) (h9 : ¬c.toNat < 65536) :
    escChar c = ('\\' :: 'u' :: hex4 (55296 + (c.toNat - 65536) / 1024)) ++
      ('\\' :: 'u' :: hex4 (56320 + (c.toNat - 65536) % 1024)) := by
  unfold escChar
  rw [if_neg h1, if_neg h2, if_neg h3, if_neg h4, if_neg h5, if_neg h6, if_neg h7,
    if_pos h8, if_neg h9]

/-- Parsing the escaped serialization of a string body followed by the
closing quote recovers exactly the original characters, with any fuel
exceeding the escaped length. -/
theorem parseStringBody_escaped (s : List Char) :
    ∀ (fuel : Nat) (rest : List Char), ((s.map escChar).flatten).length < fuel →
      parseStringBody fuel ((s.map escChar).flatten ++ '"' :: rest) = some (s, rest) := by
  induction s with
  | nil =>
    intro fuel rest h
    cases fuel with
    | zero => exact absurd h (Nat.not_lt_zero _)
    | succ f => rfl
  | cons c t ih =>
    intro fuel rest h
    rw [List.map_cons, List.flatten_cons] at h ⊢
    rw [List.append_assoc]
    cases fuel with
    | zero => exact absurd h (Nat.not_lt_zero _)
    | succ f =>
      have hlen : ((t.map escChar).flatten).length < f := by
        have hx := escChar_length_pos c
        rw [List.length_append] at h
        omega
      have hval : c.toNat < 55296 ∨ (57344 ≤ c.toNat ∧ c.toNat < 1114112) := by
        show c.val.toNat < 55296 ∨ (57344 ≤ c.val.toNat ∧ c.val.toNat < 1114112)
        rcases c.valid with hv | ⟨hv1, hv2⟩
        · exact Or.inl hv
        · exact Or.inr ⟨hv1, hv2⟩
      by_cases h1 : c = '\\'
      · subst h1
        rw [show escChar '\\' = ['\\', '\\'] from rfl]
        rw [List.cons_append, List.cons_append, List.nil_append]
        rw [psb_step_esc f _ _ '\\'
          (decodeEscUnit_twochar '\\' '\\' _ (by decide) (by decide)),
          ih f rest hlen]
      · by_cases h2 : c = '"'
        · subst h2
          rw [show escChar '"' = ['\\', '"'] from rfl]
          rw [List.cons_append, List.cons_append, List.nil_append]
          rw [psb_step_esc f _ _ '"'
            (decodeEscUnit_twochar '"' '"' _ (by decide) (by decide)),
            ih f rest hlen]
        · by_cases h3 : c.toNat = 8
          · have hc : c = Char.ofNat 8 := by rw [← h3, Char.ofNat_toNat]
            subst hc
            rw [show escChar (Char.ofNat 8) = ['\\', 'b'] from rfl]
            rw [List.cons_append, List.cons_append, List.nil_append]
            rw [psb_step_esc f _ _ (Char.ofNat 8)
              (decodeEscUnit_twochar 'b' (Char.ofNat 8) _ (by decide) (by decide)),
              ih f rest hlen]
          · by_cases h4 : c.toNat = 12
            · have hc : c = Char.ofNat 12 := by rw [← h4, Char.ofNat_toNat]
              subst hc
              rw [show escChar (Char.ofNat 12) = ['\\', 'f'] from rfl]
              rw [List.cons_append, List.cons_append, List.nil_append]
              rw [psb_step_esc f _ _ (Char.ofNat 12)
                (decodeEscUnit_twochar 'f' (Char.ofNat 12) _ (by decide) (by decide)),
                ih f rest hlen]
            · by_cases h5 : c.toNat = 10
              · have hc : c = Char.ofNat 10 := by rw [← h5, Char.ofNat_toNat]
                subst hc
                rw [show escChar (Char.ofNat 10) = ['\\', 'n'] from rfl]
                rw [List.cons_append, List.cons_append, List.nil_append]
                rw [psb_step_esc f _ _ (Char.ofNat 10)
                  (decodeEscUnit_twochar 'n' (Char.ofNat 10) _ (by decide) (by decide)),
                  ih f rest hlen]
              · by_cases h6 : c.toNat = 13
                · have hc : c = Char.ofNat 13 := by rw [← h6, Char.ofNat_toNat]
                  subst hc
                  rw [show escChar (Char.ofNat 13) = ['\\', 'r'] from rfl]
                  rw [List.cons_append, List.cons_append, List.nil_append]
                  rw [psb_step_esc f _ _ (Char.ofNat 13)
                    (decodeEscUnit_twochar 'r' (Char.ofNat 13) _ (by decide) (by decide)),
                    ih f rest hlen]
                · by_cases h7 : c.toNat = 9
                  · have hc : c = Char.ofNat 9 := by rw [← h7, Char.ofNat_toNat]
                    subst hc
                    rw [show escChar (Char.ofNat 9) = ['\\', 't'] from rfl]
                    rw [List.cons_append, List.cons_append, List.nil_append]
                    rw [psb_step_esc f _ _ (Char.ofNat 9)
                      (decodeEscUnit_twochar 't' (Char.ofNat 9) _ (by decide) (by decide)),
                      ih f rest hlen]
                  · by_cases h8 : c.toNat < 32 ∨ 126 < c.toNat
                    · by_cases h9 : c.toNat < 65536
                      · rw [escChar_u c h1 h2 h3 h4 h5 h6 h7 h8 h9]
                        rw [List.cons_append, List.cons_append]
                        rw [psb_step_esc f _ _ c (by
                          have hd := decodeEscUnit_u_bmp c.toNat
                            ((t.map escChar).flatten ++ '"' :: rest) h9 (by omega)
                          rw [Char.ofNat_toNat] at hd
                          exact hd)]
                        rw [ih f rest hlen]
                      · rw [escChar_pair c h1 h2 h3 h4 h5 h6 h7 h8 h9]
                        rw [List.append_assoc, List.cons_append, List.cons_append,
                          List.cons_append, List.cons_append]
                        rw [psb_step_esc f _ _ c (by
                          have hd := decodeEscUnit_u_pair
                            (55296 + (c.toNat - 65536) / 1024)
                            (56320 + (c.toNat - 65536) % 1024)
                            ((t.map escChar).flatten ++ '"' :: rest)
                            (by omega) (by omega)
                          have harith : 65536 +
                              (55296 + (c.toNat - 65536) / 1024 - 55296) * 1024 +
                              (56320 + (c.toNat - 65536) % 1024 - 56320) = c.toNat := by
                            omega
                          rw [harith, Char.ofNat_toNat] at hd
                          exact hd)]
                        rw [ih f rest hlen]
                    · rw [escChar_lit c h1 h2 h3 h4 h5 h6 h7 h8]
                      rw [List.cons_append, List.nil_append]
                      rw [psb_step_lit f c _ h2 h1, ih f rest hlen]

/-- The numeric value and digit-hood of `digitChar`. -/
theorem digitChar_toNat : ∀ k, k < 10 → (digitChar k).toNat = 48 + k := by decide

/-- `spanDigits` splits exactly at the digit boundary. -/
theorem spanDigits_all (a : List Char) : ∀ (b : List Char),
    (∀ c ∈ a, isDigitCh c = true) → headNotDigit b →
    spanDigits (a ++ b) = (a, b) := by
  induction a with
  | nil =>
    intro b _ hb
    cases b with
    | nil => rfl
    | cons c t =>
      simp only [List.nil_append, spanDigits]
      rw [show isDigitCh c = false from hb]
      simp
  | cons d a2 ih =>
    intro b ha hb
    have hd : isDigitCh d = true := ha d (by simp)
    rw [List.cons_append]
    have hstep : spanDigits (d :: (a2 ++ b)) =
        match spanDigits (a2 ++ b) with
        | (ds, r) => (d :: ds, r) := by
      show (if isDigitCh d then
        match spanDigits (a2 ++ b) with
        | (ds, r) => (d :: ds, r)
      else ([], d :: (a2 ++ b))) = _
      rw [if_pos hd]
    rw [hstep, ih b (fun c hc => ha c (by simp [hc])) hb]

/-- Every character emitted by `natToDigitsAux` is a digit. -/
theorem natToDigitsAux_all_digits (fuel : Nat) : ∀ n, n < fuel →
    ∀ c ∈ natToDigitsAux fuel n, isDigitCh c = true := by
  induction fuel with
  | zero => intro n h; omega
  | succ f ih =>
    intro n _ c hc
    rw [natToDigitsAux] at hc
    split at hc
    · rename_i h10
      simp only [List.mem_singleton] at hc
      subst hc
      simp only [isDigitCh, digitChar_toNat n h10, Bool.and_eq_true, decide_eq_true_eq]
      omega
    · rename_i h10
      rcases List.mem_append.mp hc with h1 | h2
      · exact ih (n / 10) (by omega) c h1
      · simp only [List.mem_singleton] at h2
        subst h2
        have hlt : n % 10 < 10 := Nat.mod_lt _ (by omega)
        simp only [isDigitCh, digitChar_toNat _ hlt, Bool.and_eq_true, decide_eq_true_eq]
        omega

/-- Every character emitted by `natToDigits` is a digit. -/
theorem natToDigits_all_digits (n : Nat) : ∀ c ∈ natToDigits n, isDigitCh c = true :=
  natToDigitsAux_all_digits (n + 1) n (by omega)

/-- `natToDigits` never returns the empty list. -/
theorem natToDigits_ne_nil (n : Nat) : natToDigits n ≠ [] := by
  unfold natToDigits natToDigitsAux
  split
  · simp
  · simp

/-- Folding the digits emitted with sufficient fuel recovers the number. -/
theorem digitsFold_natToDigitsAux (fuel : Nat) : ∀ n, n < fuel →
    digitsFold 0 (natToDigitsAux fuel n) = n := by
  induction fuel with
  | zero => intro n h; omega
  | succ f ih =>
    intro n hn
    rw [natToDigitsAux]
    split
    · rename_i h10
      simp only [digitsFold, List.foldl_cons, List.foldl_nil, digitChar_toNat n h10]
      omega
    · rename_i h10
      have hdiv := ih (n / 10) (by omega)
      have hlt : n % 10 < 10 := Nat.mod_lt _ (by omega)
      simp only [digitsFold, List.foldl_append, List.foldl_cons, List.foldl_nil]
      simp only [digitsFold] at hdiv
      rw [hdiv, digitChar_toNat _ hlt]
      omega

/-- Folding the emitted digits from zero recovers the number. -/
theorem digitsFold_natToDigits (n : Nat) : digitsFold 0 (natToDigits n) = n :=
  digitsFold_natToDigitsAux (n + 1) n (by omega)

/-- A digit is a good head. -/
theorem goodHead_digit (c : Char) (h : isDigitCh c = true) : goodHead c :=
  Or.inr (Or.inr (Or.inr (Or.inr (Or.inr (Or.inl h)))))

/-- The serialized digits of a canonical float start with a digit. -/
theorem floatDigitsPart_head (m : Nat) (e : Int) :
    ∃ d t2, floatDigitsPart m e = d :: t2 ∧ isDigitCh d = true := by
  cases hx : natToDigits m with
  | nil => exact absurd hx (natToDigits_ne_nil m)
  | cons d0 ds0 =>
    have hd0 : isDigitCh d0 = true := natToDigits_all_digits m d0 (by rw [hx]; simp)
    unfold floatDigitsPart
    split
    · split
      · exact ⟨d0, _, by rw [hx]; rfl, hd0⟩
      · split
        · rename_i hpos
          cases hk : (e + ((natToDigits m).length : Int)).toNat with
          | zero => omega
          | succ j =>
            rw [hx]
            exact ⟨d0, ds0.take j ++ '.' :: List.drop (j + 1) (d0 :: ds0),
              by rw [List.take_succ_cons]; rfl, hd0⟩
        · exact ⟨'0', _, rfl, by decide⟩
    · rw [hx]
      exact ⟨d0, _, rfl, hd0⟩

/-- Every serialized value starts with a recognizable head character. -/
theorem dumpsVal_head (v : JsonVal) : ∃ c t2, dumpsVal v = c :: t2 ∧ goodHead c := by
  cases v with
  | null => exact ⟨'n', _, rfl, by unfold goodHead; decide⟩
  | bool b =>
    cases b with
    | true => exact ⟨'t', _, rfl, by unfold goodHead; decide⟩
    | false => exact ⟨'f', _, rfl, by unfold goodHead; decide⟩
  | num n =>
    cases n with
    | ofNat m =>
      cases hx : natToDigits m with
      | nil => exact absurd hx (natToDigits_ne_nil m)
      | cons c cs =>
        refine ⟨c, cs, by simp [dumpsVal, intChars, hx], ?_⟩
        exact goodHead_digit c (natToDigits_all_digits m c (by rw [hx]; simp))
    | negSucc m =>
      exact ⟨'-', _, rfl, by unfold goodHead; decide⟩
  | fnum fl =>
    cases fl with
    | nan => exact ⟨'N', _, rfl, by unfold goodHead; decide⟩
    | inf b =>
      cases b with
      | false => exact ⟨'I', _, rfl, by unfold goodHead; decide⟩
      | true => exact ⟨'-', _, rfl, by unfold goodHead; decide⟩
    | finite neg m e =>
      cases neg with
      | true => exact ⟨'-', _, rfl, by unfold goodHead; decide⟩
      | false =>
        by_cases hm : m = 0
        · subst hm
          exact ⟨'0', _, rfl, by unfold goodHead; decide⟩
        · rcases hceq : canonFloatAux m m e with ⟨m2, e2⟩
          obtain ⟨d, t2, hdp, hdig⟩ := floatDigitsPart_head m2 e2
          refine ⟨d, t2, ?_, goodHead_digit d hdig⟩
          simp [dumpsVal, floatRepr, hm, hceq, hdp]
  | str s => exact ⟨'"', _, rfl, by unfold goodHead; decide⟩
  | arr l =>
    cases l with
    | nil => exact ⟨'[', _, rfl, by unfold goodHead; decide⟩
    | cons x t => exact ⟨'[', _, rfl, by unfold goodHead; decide⟩
  | obj fs =>
    cases fs with
    | nil => exact ⟨jLB, _, rfl, by unfold goodHead; decide⟩
    | cons kv t => exact ⟨jLB, _, rfl, by unfold goodHead; decide⟩

/-- Digit heads are not whitespace and none of the keyword heads. -/
theorem digit_facts (c : Char) (hd : isDigitCh c = true) :
    isWsChar c = false ∧ ¬c = 'n' ∧ ¬c = 't' ∧ ¬c = 'f' ∧ ¬c = '"' ∧ ¬c = '-' ∧
      ¬c = ']' ∧ ¬c = jRB := by
  simp only [isDigitCh, Bool.and_eq_true, decide_eq_true_eq] at hd
  have hne : ∀ d : Char, c.toNat ≠ d.toNat → ¬c = d := fun d h he => h (congrArg Char.toNat he)
  refine ⟨?_, ?_, ?_, ?_, ?_, ?_, ?_, ?_⟩
  · have h1 : ¬c = ' ' := hne _ (by rw [show (' ').toNat = 32 from rfl]; omega)
    have h2 : ¬c = Char.ofNat 9 := hne _ (by rw [show (Char.ofNat 9).toNat = 9 from rfl]; omega)
    have h3 : ¬c = Char.ofNat 10 := hne _ (by rw [show (Char.ofNat 10).toNat = 10 from rfl]; omega)
    have h4 : ¬c = Char.ofNat 13 := hne _ (by rw [show (Char.ofNat 13).toNat = 13 from rfl]; omega)
    simp [isWsChar, h1, h2, h3, h4]
  · exact hne _ (by rw [show ('n').toNat = 110 from rfl]; omega)
  · exact hne _ (by rw [show ('t').toNat = 116 from rfl]; omega)
  · exact hne _ (by rw [show ('f').toNat = 102 from rfl]; omega)
  · exact hne _ (by rw [show ('"').toNat = 34 from rfl]; omega)
  · exact hne _ (by rw [show ('-').toNat = 45 from rfl]; omega)
  · exact hne _ (by rw [show (']').toNat = 93 from rfl]; omega)
  · exact hne _ (by rw [show jRB.toNat = 125 from rfl]; omega)

/-- Good heads are never whitespace. -/
theorem goodHead_not_ws (c : Char) (h : goodHead c) : isWsChar c = false := by
  rcases h with h | h | h | h | h | h | h | h | h | h
  · subst h; rfl
  · subst h; rfl
  · subst h; rfl
  · subst h; rfl
  · subst h; rfl
  · exact (digit_facts c h).1
  · subst h; rfl
  · subst h; rfl
  · subst h; rfl
  · subst h; rfl

/-- Good heads are not the array terminator. -/
theorem goodHead_ne_rbracket (c : Char) (h : goodHead c) : ¬c = ']' := by
  rcases h with h | h | h | h | h | h | h | h | h | h
  · subst h; decide
  · subst h; decide
  · subst h; decide
  · subst h; decide
  · subst h; decide
  · exact (digit_facts c h).2.2.2.2.2.2.1
  · subst h; decide
  · subst h; decide
  · subst h; decide
  · subst h; decide

/-- Good heads are not the object terminator. -/
theorem goodHead_ne_rbrace (c : Char) (h : goodHead c) : ¬c = jRB := by
  rcases h with h | h | h | h | h | h | h | h | h | h
  · subst h; decide
  · subst h; decide
  · subst h; decide
  · subst h; decide
  · subst h; decide
  · exact (digit_facts c h).2.2.2.2.2.2.2
  · subst h; decide
  · subst h; decide
  · subst h; decide
  · subst h; decide

/-- Boundary suffixes are left intact by whitespace skipping. -/
theorem boundaryHead_skipWs (rest : List Char) (hb : boundaryHead rest) :
    skipWs rest = rest := by
  cases rest with
  | nil => rfl
  | cons c t =>
    rcases hb with h | h | h
    · subst h; rfl
    · subst h; rfl
    · subst h; rfl

/-- Boundary suffixes never begin with a digit. -/
theorem boundaryHead_notDigit (rest : List Char) (hb : boundaryHead rest) :
    headNotDigit rest := by
  cases rest with
  | nil => trivial
  | cons c t =>
    rcases hb with h | h | h
    · subst h; show isDigitCh (Char.ofNat 44) = false; decide
    · subst h; show isDigitCh (Char.ofNat 93) = false; decide
    · subst h; show isDigitCh jRB = false; decide

/-- One fueled step of the value parser. -/
theorem parseVal_step (f : Nat) (input : List Char) (c : Char) (rest : List Char)
    (h : skipWs input = c :: rest) :
    parseVal (f + 1) input = parseValDispatch (parseElems f) (parseMembers f) c rest := by
  have hstep : parseVal (f + 1) input =
      match skipWs input with
      | [] => none
      | c :: rest => parseValDispatch (parseElems f) (parseMembers f) c rest := rfl
  rw [hstep, h]

/-- One fueled step of the element parser. -/
theorem parseElems_step (f : Nat) (input : List Char) :
    parseElems (f + 1) input =
      match parseVal f input with
      | some (v, r) => parseElemsAfter (parseElems f) v r
      | none => none := rfl

/-- One fueled step of the member parser on a quote-headed input. -/
theorem parseMembers_step (f : Nat) (R : List Char) :
    parseMembers (f + 1) ('"' :: R) =
      match parseStringBody (R.length + 1) R with
      | some (k, r2) => parseMembersKV (parseVal f) (parseMembers f) k r2
      | none => none := rfl

/-- Dispatch on a quote: a string literal. -/
theorem dispatch_quote (pe : List Char → Option (List JsonVal × List Char))
    (pm : List Char → Option (List (String × JsonVal) × List Char)) (R : List Char) :
    parseValDispatch pe pm '"' R =
      match parseStringBody (R.length + 1) R with
      | some (s, r) => some (.str (String.mk s), r)
      | none => none := rfl

/-- Dispatch on a digit head: a number token. -/
theorem dispatch_digit (pe : List Char → Option (List JsonVal × List Char))
    (pm : List Char → Option (List (String × JsonVal) × List Char))
    (c : Char) (rest : List Char) (hd : isDigitCh c = true) :
    parseValDispatch pe pm c rest = parseNumberGo false c rest := by
  obtain ⟨-, hn, ht, hf, hq, hm, -, -⟩ := digit_facts c hd
  unfold parseValDispatch
  rw [if_neg hn, if_neg ht, if_neg hf, if_neg hq, if_neg hm, if_pos hd]

/-- Dispatch on an opening bracket. -/
theorem dispatch_lbracket (pe : List Char → Option (List JsonVal × List Char))
    (pm : List Char → Option (List (String × JsonVal) × List Char)) (rest : List Char) :
    parseValDispatch pe pm '[' rest =
      match skipWs rest with
      | b :: r2 =>
        if b = ']' then some (.arr [], r2)
        else
          match pe (b :: r2) with
          | some (xs, r3) => some (.arr xs, r3)
          | none => none
      | [] => none := rfl

/-- Dispatch on an opening brace. -/
theorem dispatch_lbrace (pe : List Char → Option (List JsonVal × List Char))
    (pm : List Char → Option (List (String × JsonVal) × List Char)) (rest : List Char) :
    parseValDispatch pe pm jLB rest =
      match skipWs rest with
      | b :: r2 =>
        if b = jRB then some (.obj [], r2)
        else
          match pm (b :: r2) with
          | some (fs, r3) => some (.obj fs, r3)
          | none => none
      | [] => none := rfl

/-- The tail after an array element starts with a comma or the closing
bracket. -/
theorem boundary_more_elems (t : List JsonVal) (rest : List Char) :
    boundaryHead (dumpsMoreElems t ++ ']' :: rest) := by
  cases t with
  | nil => exact Or.inr (Or.inl rfl)
  | cons y t2 => exact Or.inl rfl

/-- The tail after an object member starts with a comma or the closing
brace. -/
theorem boundary_more_fields (t : List (String × JsonVal)) (rest : List Char) :
    boundaryHead (dumpsMoreFields t ++ jRB :: rest) := by
  cases t with
  | nil => exact Or.inr (Or.inr rfl)
  | cons kv t2 => exact Or.inl rfl

mutual

/-- The fuel measure of a value is bounded by its serialized length. -/
theorem size_le_dumps (v : JsonVal) : sizeVal v ≤ (dumpsVal v).length + 1 := by
  cases v with
  | null => simp [sizeVal, dumpsVal]
  | bool b => cases b <;> simp [sizeVal, dumpsVal]
  | num n => simp only [sizeVal]; omega
  | fnum fl => simp only [sizeVal]; omega
  | str s => simp only [sizeVal]; omega
  | arr l =>
    cases l with
    | nil => simp [sizeVal, sizeElems, dumpsVal]
    | cons x t =>
      have h1 := size_le_dumps x
      have h2 := size_le_elems t
      simp only [sizeVal, sizeElems, dumpsVal, List.length_cons, List.length_append,
        List.length_nil] at h1 h2 ⊢
      omega
  | obj fs =>
    cases fs with
    | nil => simp [sizeVal, sizeFields, dumpsVal]
    | cons kv t =>
      cases kv with
      | mk k w =>
        have h1 := size_le_dumps w
        have h2 := size_le_fields t
        simp only [sizeVal, sizeFields, dumpsVal, List.length_cons, List.length_append,
          List.length_nil] at h1 h2 ⊢
        omega

/-- The fuel measure of element tails is bounded by their serialized
length. -/
theorem size_le_elems (l : List JsonVal) : sizeElems l ≤ (dumpsMoreElems l).length + 1 := by
  cases l with
  | nil => simp [sizeElems, dumpsMoreElems]
  | cons x t =>
    have h1 := size_le_dumps x
    have h2 := size_le_elems t
    simp only [sizeElems, dumpsMoreElems, List.length_cons, List.length_append] at h1 h2 ⊢
    omega

/-- The fuel measure of field tails is bounded by their serialized
length. -/
theorem size_le_fields (l : List (String × JsonVal)) :
    sizeFields l ≤ (dumpsMoreFields l).length + 1 := by
  cases l with
  | nil => simp [sizeFields, dumpsMoreFields]
  | cons kv t =>
    cases kv with
    | mk k w =>
      have h1 := size_le_dumps w
      have h2 := size_le_fields t
      simp only [sizeFields, dumpsMoreFields, List.length_cons, List.length_append] at h1 h2 ⊢
      omega

end

/-- Folding digits over an append composes. -/
theorem digitsFold_append (acc : Nat) (a b : List Char) :
    digitsFold acc (a ++ b) = digitsFold (digitsFold acc a) b := by
  simp [digitsFold, List.foldl_append]

/-- Zero padding multiplies the accumulator by a power of ten. -/
theorem digitsFold_zeroChars (k : Nat) : ∀ acc : Nat,
    digitsFold acc (zeroChars k) = acc * 10 ^ k := by
  induction k with
  | zero => intro acc; simp [digitsFold, zeroChars]
  | succ j ih =>
    intro acc
    have h0 : zeroChars (j + 1) = '0' :: zeroChars j := rfl
    rw [h0]
    show digitsFold acc ('0' :: zeroChars j) = acc * 10 ^ (j + 1)
    have h1 : digitsFold acc ('0' :: zeroChars j) =
        digitsFold (acc * 10) (zeroChars j) := by
      simp [digitsFold, List.foldl_cons]
    rw [h1, ih (acc * 10)]
    ring

/-- Every padding character is a digit. -/
theorem zeroChars_digits (k : Nat) : ∀ c ∈ zeroChars k, isDigitCh c = true := by
  intro c hc
  rw [List.eq_of_mem_replicate hc]
  decide

/-- The leading digit of a positive number is not `'0'`. -/
theorem natToDigitsAux_head_pos (fuel : Nat) : ∀ n, n < fuel → n ≠ 0 →
    ∃ d ds, natToDigitsAux fuel n = d :: ds ∧ isDigitCh d = true ∧ ¬d = '0' := by
  induction fuel with
  | zero => intro n h; omega
  | succ f ih =>
    intro n hn h0
    rw [natToDigitsAux]
    split
    · rename_i h10
      refine ⟨digitChar n, [], rfl, ?_, ?_⟩
      · simp only [isDigitCh, digitChar_toNat n h10, Bool.and_eq_true, decide_eq_true_eq]
        omega
      · intro he
        have h2 := congrArg Char.toNat he
        rw [digitChar_toNat n h10, show ('0').toNat = 48 from rfl] at h2
        omega
    · rename_i h10
      obtain ⟨d, ds, hd, hdig, hne⟩ := ih (n / 10) (by omega) (by omega)
      exact ⟨d, ds ++ [digitChar (n % 10)], by rw [hd]; rfl, hdig, hne⟩

/-- The leading digit of a positive number is not `'0'`. -/
theorem natToDigits_head_pos (n : Nat) (h : n ≠ 0) :
    ∃ d ds, natToDigits n = d :: ds ∧ isDigitCh d = true ∧ ¬d = '0' :=
  natToDigitsAux_head_pos (n + 1) n (by omega) h

/-- A number token ends cleanly at a non-continuation character. -/
theorem parseNumberTail_stop (neg : Bool) (ids : List Char) (c : Char) (r2 : List Char)
    (h1 : ¬c = '.') (h2 : ¬(c = 'e' ∨ c = 'E')) :
    parseNumberTail neg ids (c :: r2) = some (mkInt neg ids, c :: r2) := by
  have e : parseNumberTail neg ids (c :: r2) =
      if c = '.' then
        if (spanDigits r2).1 = [] then none
        else parseAfterFrac neg ids (spanDigits r2).1 (spanDigits r2).2
      else if c = 'e' ∨ c = 'E' then parseExpTail neg ids [] r2
      else some (mkInt neg ids, c :: r2) := rfl
  rw [e, if_neg h1, if_neg h2]

/-- A number token ends cleanly at a boundary. -/
theorem parseNumberTail_boundary (neg : Bool) (ids : List Char) (rest : List Char)
    (hb : boundaryHead rest) :
    parseNumberTail neg ids rest = some (mkInt neg ids, rest) := by
  cases rest with
  | nil => rfl
  | cons c t =>
    rcases hb with h | h | h <;>
      (subst h; exact parseNumberTail_stop neg ids _ t (by decide) (by decide))

/-- A fractional token ends cleanly at a non-exponent character. -/
theorem parseAfterFrac_stop (neg : Bool) (ids fds : List Char) (c : Char) (r4 : List Char)
    (h2 : ¬(c = 'e' ∨ c = 'E')) :
    parseAfterFrac neg ids fds (c :: r4) = some (mkFloat neg ids fds 0, c :: r4) := by
  have e : parseAfterFrac neg ids fds (c :: r4) =
      if c = 'e' ∨ c = 'E' then parseExpTail neg ids fds r4
      else some (mkFloat neg ids fds 0, c :: r4) := rfl
  rw [e, if_neg h2]

/-- A fractional token ends cleanly at a boundary. -/
theorem parseAfterFrac_boundary (neg : Bool) (ids fds : List Char) (rest : List Char)
    (hb : boundaryHead rest) :
    parseAfterFrac neg ids fds rest = some (mkFloat neg ids fds 0, rest) := by
  cases rest with
  | nil => rfl
  | cons c t =>
    rcases hb with h | h | h <;>
      (subst h; exact parseAfterFrac_stop neg ids fds _ t (by decide))

/-- A dot continues into the fraction scan. -/
theorem parseNumberTail_dot (neg : Bool) (ids r2 : List Char) :
    parseNumberTail neg ids ('.' :: r2) =
      if (spanDigits r2).1 = [] then none
      else parseAfterFrac neg ids (spanDigits r2).1 (spanDigits r2).2 := rfl

/-- An `e` right after the integer digits continues into the exponent. -/
theorem parseNumberTail_e (neg : Bool) (ids r2 : List Char) :
    parseNumberTail neg ids ('e' :: r2) = parseExpTail neg ids [] r2 := rfl

/-- An `e` after the fraction digits continues into the exponent. -/
theorem parseAfterFrac_e (neg : Bool) (ids fds r4 : List Char) :
    parseAfterFrac neg ids fds ('e' :: r4) = parseExpTail neg ids fds r4 := rfl

/-- An explicit plus sign before the exponent digits. -/
theorem parseExpTail_plus (neg : Bool) (ids fds r5 : List Char) :
    parseExpTail neg ids fds ('+' :: r5) = expDigitsGo neg ids fds false r5 := rfl

/-- An explicit minus sign before the exponent digits. -/
theorem parseExpTail_minus (neg : Bool) (ids fds r5 : List Char) :
    parseExpTail neg ids fds ('-' :: r5) = expDigitsGo neg ids fds true r5 := rfl

/-- Normalization strips exactly the trailing-zero factor. -/
theorem canonFloatAux_pow (m : Nat) (hm : m ≠ 0) (h10 : m % 10 ≠ 0) :
    ∀ (k : Nat) (e : Int) (fuel : Nat), k < fuel →
      canonFloatAux fuel (m * 10 ^ k) e = (m, e + k) := by
  intro k
  induction k with
  | zero =>
    intro e fuel hf
    cases fuel with
    | zero => omega
    | succ f =>
      rw [canonFloatAux]
      rw [if_neg (by
        intro hc
        rcases hc with ⟨-, hc2⟩
        rw [pow_zero, Nat.mul_one] at hc2
        exact h10 hc2)]
      rw [pow_zero, Nat.mul_one]
      simp
  | succ j ih =>
    intro e fuel hf
    cases fuel with
    | zero => omega
    | succ f =>
      rw [canonFloatAux]
      have hmul : m * 10 ^ (j + 1) = m * 10 ^ j * 10 := by ring
      rw [if_pos ⟨by positivity, by rw [hmul]; simp [Nat.mul_mod_left]⟩]
      have hdiv : m * 10 ^ (j + 1) / 10 = m * 10 ^ j := by
        rw [hmul, Nat.mul_div_cancel]
        omega
      rw [hdiv, ih (e + 1) f (by omega)]
      have he : e + 1 + (j : Int) = e + ((j + 1 : Nat) : Int) := by push_cast; ring
      rw [he]

/-- Normalizing a mantissa carrying a power-of-ten factor. -/
theorem canonFloat_pow (neg : Bool) (m : Nat) (e : Int) (k : Nat)
    (hm : m ≠ 0) (h10 : m % 10 ≠ 0) :
    canonFloat neg (m * 10 ^ k) e = .finite neg m (e + k) := by
  unfold canonFloat
  rw [if_neg (Nat.mul_ne_zero hm (pow_ne_zero k (by omega)))]
  have hk : k < m * 10 ^ k := by
    have h1 : k < 10 ^ k := Nat.lt_pow_self (by omega) k
    have h2 : 10 ^ k ≤ m * 10 ^ k := Nat.le_mul_of_pos_left _ (by omega)
    omega
  rw [canonFloatAux_pow m hm h10 k e (m * 10 ^ k) hk]

/-- Normalizing an already-canonical mantissa is the identity. -/
theorem canonFloat_id (neg : Bool) (m : Nat) (e : Int)
    (hm : m ≠ 0) (h10 : m % 10 ≠ 0) :
    canonFloat neg m e = .finite neg m e := by
  have h := canonFloat_pow neg m e 0 hm h10
  simpa using h

/-- The printed exponent block: digits only, never empty, folding back to
the exponent value. -/
theorem expDigits_spec (k : Nat) :
    (∀ c ∈ expDigits k, isDigitCh c = true) ∧ expDigits k ≠ [] ∧
      digitsFold 0 (expDigits k) = k := by
  unfold expDigits
  split
  · refine ⟨?_, by simp, ?_⟩
    · intro c hc
      rcases List.mem_cons.mp hc with h | h
      · subst h; decide
      · exact natToDigits_all_digits k c h
    · have h1 : digitsFold 0 ('0' :: natToDigits k) = digitsFold 0 (natToDigits k) := by
        simp [digitsFold, List.foldl_cons]
      rw [h1, digitsFold_natToDigits]
  · exact ⟨natToDigits_all_digits k, natToDigits_ne_nil k, digitsFold_natToDigits k⟩

/-- Parsing an integer token: the digits of `m` before a boundary scan
back to `m` with the boundary intact. -/
theorem parse_intToken (neg : Bool) (m : Nat) (rest : List Char) (hb : boundaryHead rest) :
    ∃ d t2, natToDigits m = d :: t2 ∧ isDigitCh d = true ∧
      parseNumberGo neg d (t2 ++ rest) = some (mkInt neg (natToDigits m), rest) := by
  by_cases hm : m = 0
  · subst hm
    refine ⟨'0', [], rfl, by decide, ?_⟩
    show parseNumberTail neg ['0'] rest = some (mkInt neg (natToDigits 0), rest)
    exact parseNumberTail_boundary neg ['0'] rest hb
  · obtain ⟨d, ds, hD, hdig, hne0⟩ := natToDigits_head_pos m hm
    refine ⟨d, ds, hD, hdig, ?_⟩
    have hds : ∀ c ∈ ds, isDigitCh c = true := fun c hc =>
      natToDigits_all_digits m c (by rw [hD]; simp [hc])
    have hip : intPartDigits d (ds ++ rest) = (d :: ds, rest) := by
      unfold intPartDigits
      rw [if_neg hne0, spanDigits_all ds rest hds (boundaryHead_notDigit rest hb)]
    show (match intPartDigits d (ds ++ rest) with
      | (ids, r1) => parseNumberTail neg ids r1) = some (mkInt neg (natToDigits m), rest)
    rw [hip, hD]
    exact parseNumberTail_boundary neg (d :: ds) rest hb

/-- Dispatch on a minus sign followed by a digit: a negative number
token. -/
theorem dispatch_minus_digit (pe : List Char → Option (List JsonVal × List Char))
    (pm : List Char → Option (List (String × JsonVal) × List Char))
    (d : Char) (r2 : List Char) (hd : isDigitCh d = true) :
    parseValDispatch pe pm '-' (d :: r2) = parseNumberGo true d r2 := by
  have h1 : parseValDispatch pe pm '-' (d :: r2) =
      if isDigitCh d then parseNumberGo true d r2
      else
        match d :: r2 with
        | 'I' :: 'n' :: 'f' :: 'i' :: 'n' :: 'i' :: 't' :: 'y' :: r =>
          some (.fnum (.inf true), r)
        | _ => none := rfl
  rw [h1, if_pos hd]

/-- Parsing a float token: the printed digits of a canonical nonzero
decimal before a boundary scan back to exactly that decimal. -/
theorem parse_floatToken (neg : Bool) (m : Nat) (e : Int) (hm : m ≠ 0) (h10 : m % 10 ≠ 0)
    (rest : List Char) (hb : boundaryHead rest) :
    ∃ d t2, floatDigitsPart m e = d :: t2 ∧ isDigitCh d = true ∧
      parseNumberGo neg d (t2 ++ rest) = some (JsonVal.fnum (.finite neg m e), rest) := by
  obtain ⟨d0, ds0, hD, hd0dig, hd0ne⟩ := natToDigits_head_pos m hm
  have hallD : ∀ c ∈ natToDigits m, isDigitCh c = true := natToDigits_all_digits m
  have hnotdig := boundaryHead_notDigit rest hb
  have hnd : (natToDigits m).length = ds0.length + 1 := by rw [hD]; simp
  unfold floatDigitsPart
  split
  · rename_i hrange
    split
    · rename_i he
      refine ⟨d0, (ds0 ++ zeroChars e.toNat) ++ ['.', '0'], by rw [hD]; rfl, hd0dig, ?_⟩
      have hshape : (((ds0 ++ zeroChars e.toNat) ++ ['.', '0']) ++ rest) =
          (ds0 ++ zeroChars e.toNat) ++ '.' :: '0' :: rest := by
        simp [List.append_assoc]
      rw [hshape]
      have hdsz : ∀ c ∈ ds0 ++ zeroChars e.toNat, isDigitCh c = true := by
        intro c hc
        rcases List.mem_append.mp hc with h | h
        · exact hallD c (by rw [hD]; simp [h])
        · exact zeroChars_digits _ c h
      have hip : intPartDigits d0 ((ds0 ++ zeroChars e.toNat) ++ '.' :: '0' :: rest) =
          (d0 :: (ds0 ++ zeroChars e.toNat), '.' :: '0' :: rest) := by
        unfold intPartDigits
        rw [if_neg hd0ne,
          spanDigits_all (ds0 ++ zeroChars e.toNat) ('.' :: '0' :: rest) hdsz
            (show isDigitCh ('.') = false by decide)]
      show (match intPartDigits d0 ((ds0 ++ zeroChars e.toNat) ++ '.' :: '0' :: rest) with
        | (ids, r1) => parseNumberTail neg ids r1) = _
      rw [hip]
      show parseNumberTail neg (d0 :: (ds0 ++ zeroChars e.toNat)) ('.' :: '0' :: rest) = _
      rw [parseNumberTail_dot]
      have hsp0 : spanDigits ('0' :: rest) = (['0'], rest) := by
        have h := spanDigits_all ['0'] rest
          (by intro c hc; simp at hc; subst hc; decide) hnotdig
        simpa using h
      rw [hsp0, if_neg (by simp)]
      show parseAfterFrac neg (d0 :: (ds0 ++ zeroChars e.toNat)) ['0'] rest = _
      rw [parseAfterFrac_boundary neg _ _ rest hb]
      have hman : digitsFold 0 ((d0 :: (ds0 ++ zeroChars e.toNat)) ++ ['0']) =
          m * 10 ^ (e.toNat + 1) := by
        have h1 : d0 :: (ds0 ++ zeroChars e.toNat) = natToDigits m ++ zeroChars e.toNat := by
          rw [hD]; rfl
        rw [h1, digitsFold_append, digitsFold_append, digitsFold_natToDigits,
          digitsFold_zeroChars]
        have h2 : digitsFold (m * 10 ^ e.toNat) ['0'] = m * 10 ^ e.toNat * 10 := by
          simp [digitsFold, List.foldl_cons]
        rw [h2]
        ring
      show some (mkFloat neg (d0 :: (ds0 ++ zeroChars e.toNat)) ['0'] 0, rest) = _
      unfold mkFloat
      rw [hman, canonFloat_pow neg m _ _ hm h10]
      have he2 : (0 : Int) - ((['0'] : List Char).length : Int) +
          ((e.toNat + 1 : Nat) : Int) = e := by
        simp only [List.length_cons, List.length_nil]
        omega
      rw [he2]
    · split
      · rename_i he hpos
        cases hk : (e + ((natToDigits m).length : Int)).toNat with
        | zero => omega
        | succ j =>
          rw [hD, List.take_succ_cons]
          refine ⟨d0, ds0.take j ++ '.' :: List.drop (j + 1) (d0 :: ds0), rfl, hd0dig, ?_⟩
          have hshape : ((ds0.take j ++ '.' :: List.drop (j + 1) (d0 :: ds0)) ++ rest) =
              ds0.take j ++ '.' :: (List.drop (j + 1) (d0 :: ds0) ++ rest) := by
            simp [List.append_assoc]
          rw [hshape]
          have htakedig : ∀ c ∈ ds0.take j, isDigitCh c = true := fun c hc =>
            hallD c (by rw [hD]; exact List.mem_cons_of_mem d0 (List.take_subset j ds0 hc))
          have hip : intPartDigits d0
              (ds0.take j ++ '.' :: (List.drop (j + 1) (d0 :: ds0) ++ rest)) =
              (d0 :: ds0.take j, '.' :: (List.drop (j + 1) (d0 :: ds0) ++ rest)) := by
            unfold intPartDigits
            rw [if_neg hd0ne,
              spanDigits_all (ds0.take j) ('.' :: (List.drop (j + 1) (d0 :: ds0) ++ rest))
                htakedig (show isDigitCh ('.') = false by decide)]
          show (match intPartDigits d0
              (ds0.take j ++ '.' :: (List.drop (j + 1) (d0 :: ds0) ++ rest)) with
            | (ids, r1) => parseNumberTail neg ids r1) = _
          rw [hip]
          show parseNumberTail neg (d0 :: ds0.take j)
            ('.' :: (List.drop (j + 1) (d0 :: ds0) ++ rest)) = _
          rw [parseNumberTail_dot]
          have hdropdig : ∀ c ∈ List.drop (j + 1) (d0 :: ds0), isDigitCh c = true :=
            fun c hc => hallD c (by rw [hD]; exact List.drop_subset _ _ hc)
          rw [spanDigits_all _ _ hdropdig hnotdig]
          have hdropne : ¬List.drop (j + 1) (d0 :: ds0) = [] := by
            rw [List.drop_eq_nil_iff]
            simp only [List.length_cons]
            rw [hnd] at hk
            omega
          rw [if_neg hdropne]
          show parseAfterFrac neg (d0 :: ds0.take j) (List.drop (j + 1) (d0 :: ds0)) rest = _
          rw [parseAfterFrac_boundary neg _ _ rest hb]
          unfold mkFloat
          have hman : digitsFold 0 ((d0 :: ds0.take j) ++ List.drop (j + 1) (d0 :: ds0)) =
              m := by
            have h1 : d0 :: ds0.take j = List.take (j + 1) (d0 :: ds0) := by
              rw [List.take_succ_cons]
            rw [h1, List.take_append_drop, ← hD, digitsFold_natToDigits]
          rw [hman]
          have hexp : (0 : Int) - ((List.drop (j + 1) (d0 :: ds0)).length : Int) = e := by
            rw [List.length_drop]
            simp only [List.length_cons]
            rw [hnd] at hk
            omega
          rw [hexp, canonFloat_id neg m e hm h10]
      · rename_i he hpos
        refine ⟨'0', ('.' :: zeroChars (-(e + ((natToDigits m).length : Int))).toNat) ++
          natToDigits m, rfl, by decide, ?_⟩
        have hshape : ((('.' :: zeroChars (-(e + ((natToDigits m).length : Int))).toNat) ++
            natToDigits m) ++ rest) =
            '.' :: ((zeroChars (-(e + ((natToDigits m).length : Int))).toNat ++
              natToDigits m) ++ rest) := by
          simp [List.append_assoc]
        rw [hshape]
        have hzd : ∀ c ∈ zeroChars (-(e + ((natToDigits m).length : Int))).toNat ++
            natToDigits m, isDigitCh c = true := by
          intro c hc
          rcases List.mem_append.mp hc with h | h
          · exact zeroChars_digits _ c h
          · exact hallD c h
        have hip : intPartDigits '0'
            ('.' :: ((zeroChars (-(e + ((natToDigits m).length : Int))).toNat ++
              natToDigits m) ++ rest)) =
            (['0'], '.' :: ((zeroChars (-(e + ((natToDigits m).length : Int))).toNat ++
              natToDigits m) ++ rest)) := by
          unfold intPartDigits
          rw [if_pos rfl]
        show (match intPartDigits '0'
            ('.' :: ((zeroChars (-(e + ((natToDigits m).length : Int))).toNat ++
              natToDigits m) ++ rest)) with
          | (ids, r1) => parseNumberTail neg ids r1) = _
        rw [hip]
        show parseNumberTail neg ['0']
          ('.' :: ((zeroChars (-(e + ((natToDigits m).length : Int))).toNat ++
            natToDigits m) ++ rest)) = _
        rw [parseNumberTail_dot, spanDigits_all _ _ hzd hnotdig]
        rw [if_neg (by simp [natToDigits_ne_nil m])]
        show parseAfterFrac neg ['0']
          (zeroChars (-(e + ((natToDigits m).length : Int))).toNat ++ natToDigits m) rest = _
        rw [parseAfterFrac_boundary neg _ _ rest hb]
        unfold mkFloat
        have hman : digitsFold 0 (['0'] ++
            (zeroChars (-(e + ((natToDigits m).length : Int))).toNat ++ natToDigits m)) =
            m := by
          rw [digitsFold_append, digitsFold_append]
          rw [show digitsFold 0 ['0'] = 0 from rfl, digitsFold_zeroChars]
          rw [Nat.zero_mul, digitsFold_natToDigits]
        rw [hman]
        have hexp : (0 : Int) - (((zeroChars
            (-(e + ((natToDigits m).length : Int))).toNat ++ natToDigits m).length : Int)) =
            e := by
          rw [List.length_append, zeroChars, List.length_replicate, hnd]
          push_cast
          omega
        rw [hexp, canonFloat_id neg m e hm h10]
  · rename_i hrange
    rw [hD]
    obtain ⟨hEdig, hEne, hEfold⟩ :=
      expDigits_spec (e + (((d0 :: ds0).length : Nat) : Int) - 1).natAbs
    have hEX := spanDigits_all _ rest hEdig hnotdig
    by_cases hsgn : (0 : Int) ≤ e + (((d0 :: ds0).length : Nat) : Int) - 1
    · rw [if_pos hsgn]
      cases ds0 with
      | nil =>
        refine ⟨d0, 'e' :: '+' ::
          expDigits (e + ((([d0] : List Char).length : Nat) : Int) - 1).natAbs, rfl,
          hd0dig, ?_⟩
        have hip : intPartDigits d0 ('e' :: '+' ::
            (expDigits (e + ((([d0] : List Char).length : Nat) : Int) - 1).natAbs ++ rest)) =
            ([d0], 'e' :: '+' ::
              (expDigits (e + ((([d0] : List Char).length : Nat) : Int) - 1).natAbs ++
                rest)) := by
          unfold intPartDigits
          rw [if_neg hd0ne]
          rfl
        show (match intPartDigits d0 ('e' :: '+' ::
            (expDigits (e + ((([d0] : List Char).length : Nat) : Int) - 1).natAbs ++
              rest)) with
          | (ids, r1) => parseNumberTail neg ids r1) = _
        rw [hip]
        show parseNumberTail neg [d0] ('e' :: '+' ::
          (expDigits (e + ((([d0] : List Char).length : Nat) : Int) - 1).natAbs ++
            rest)) = _
        rw [parseNumberTail_e, parseExpTail_plus]
        unfold expDigitsGo
        rw [hEX, if_neg hEne, hEfold]
        rw [if_neg Bool.false_ne_true]
        unfold mkFloat
        have hman : digitsFold 0 ([d0] ++ []) = m := by
          rw [show ([d0] ++ [] : List Char) = natToDigits m from by rw [hD]; simp,
            digitsFold_natToDigits]
        rw [hman]
        have hexp : (Int.ofNat (e + ((([d0] : List Char).length : Nat) : Int) - 1).natAbs -
            (([] : List Char).length : Int)) = e := by
          simp only [Int.ofNat_eq_natCast, List.length_cons, List.length_nil] at hsgn ⊢
          omega
        rw [hexp, canonFloat_id neg m e hm h10]
      | cons y ys =>
        refine ⟨d0, ('.' :: (y :: ys)) ++ 'e' :: '+' ::
          expDigits (e + (((d0 :: y :: ys : List Char).length : Nat) : Int) - 1).natAbs,
          rfl, hd0dig, ?_⟩
        have hshape : ((('.' :: (y :: ys)) ++ 'e' :: '+' ::
            expDigits (e + (((d0 :: y :: ys : List Char).length : Nat) : Int) -
              1).natAbs) ++ rest) =
            '.' :: ((y :: ys) ++ ('e' :: '+' ::
              (expDigits (e + (((d0 :: y :: ys : List Char).length : Nat) : Int) -
                1).natAbs ++ rest))) := by
          simp [List.append_assoc]
        rw [hshape]
        have hip : intPartDigits d0 ('.' :: ((y :: ys) ++ ('e' :: '+' ::
            (expDigits (e + (((d0 :: y :: ys : List Char).length : Nat) : Int) -
              1).natAbs ++ rest)))) =
            ([d0], '.' :: ((y :: ys) ++ ('e' :: '+' ::
              (expDigits (e + (((d0 :: y :: ys : List Char).length : Nat) : Int) -
                1).natAbs ++ rest)))) := by
          unfold intPartDigits
          rw [if_neg hd0ne]
          rfl
        show (match intPartDigits d0 ('.' :: ((y :: ys) ++ ('e' :: '+' ::
            (expDigits (e + (((d0 :: y :: ys : List Char).length : Nat) : Int) -
              1).natAbs ++ rest)))) with
          | (ids, r1) => parseNumberTail neg ids r1) = _
        rw [hip]
        show parseNumberTail neg [d0] ('.' :: ((y :: ys) ++ ('e' :: '+' ::
          (expDigits (e + (((d0 :: y :: ys : List Char).length : Nat) : Int) -
            1).natAbs ++ rest)))) = _
        rw [parseNumberTail_dot]
        have hysdig : ∀ c ∈ (y :: ys), isDigitCh c = true := fun c hc =>
          hallD c (by rw [hD]; simp [hc])
        rw [spanDigits_all (y :: ys) ('e' :: '+' ::
            (expDigits (e + (((d0 :: y :: ys : List Char).length : Nat) : Int) -
              1).natAbs ++ rest)) hysdig (show isDigitCh 'e' = false by decide),
          if_neg (by simp)]
        show parseAfterFrac neg [d0] (y :: ys) ('e' :: '+' ::
          (expDigits (e + (((d0 :: y :: ys : List Char).length : Nat) : Int) -
            1).natAbs ++ rest)) = _
        rw [parseAfterFrac_e, parseExpTail_plus]
        unfold expDigitsGo
        rw [hEX, if_neg hEne, hEfold]
        rw [if_neg Bool.false_ne_true]
        unfold mkFloat
        have hman : digitsFold 0 ([d0] ++ (y :: ys)) = m := by
          rw [show ([d0] ++ (y :: ys) : List Char) = natToDigits m from by rw [hD]; rfl,
            digitsFold_natToDigits]
        rw [hman]
        have hexp : (Int.ofNat (e + (((d0 :: y :: ys : List Char).length : Nat) : Int) -
            1).natAbs - (((y :: ys) : List Char).length : Int)) = e := by
          simp only [Int.ofNat_eq_natCast, List.length_cons] at hsgn ⊢
          omega
        rw [hexp, canonFloat_id neg m e hm h10]
    · rw [if_neg hsgn]
      cases ds0 with
      | nil =>
        refine ⟨d0, 'e' :: '-' ::
          expDigits (e + ((([d0] : List Char).length : Nat) : Int) - 1).natAbs, rfl,
          hd0dig, ?_⟩
        have hip : intPartDigits d0 ('e' :: '-' ::
            (expDigits (e + ((([d0] : List Char).length : Nat) : Int) - 1).natAbs ++ rest)) =
            ([d0], 'e' :: '-' ::
              (expDigits (e + ((([d0] : List Char).length : Nat) : Int) - 1).natAbs ++
                rest)) := by
          unfold intPartDigits
          rw [if_neg hd0ne]
          rfl
        show (match intPartDigits d0 ('e' :: '-' ::
            (expDigits (e + ((([d0] : List Char).length : Nat) : Int) - 1).natAbs ++
              rest)) with
          | (ids, r1) => parseNumberTail neg ids r1) = _
        rw [hip]
        show parseNumberTail neg [d0] ('e' :: '-' ::
          (expDigits (e + ((([d0] : List Char).length : Nat) : Int) - 1).natAbs ++
            rest)) = _
        rw [parseNumberTail_e, parseExpTail_minus]
        unfold expDigitsGo
        rw [hEX, if_neg hEne, hEfold]
        rw [if_pos rfl]
        unfold mkFloat
        have hman : digitsFold 0 ([d0] ++ []) = m := by
          rw [show ([d0] ++ [] : List Char) = natToDigits m from by rw [hD]; simp,
            digitsFold_natToDigits]
        rw [hman]
        have hexp : (-Int.ofNat (e + ((([d0] : List Char).length : Nat) : Int) - 1).natAbs -
            (([] : List Char).length : Int)) = e := by
          simp only [Int.ofNat_eq_natCast, List.length_cons, List.length_nil] at hsgn ⊢
          omega
        rw [hexp, canonFloat_id neg m e hm h10]
      | cons y ys =>
        refine ⟨d0, ('.' :: (y :: ys)) ++ 'e' :: '-' ::
          expDigits (e + (((d0 :: y :: ys : List Char).length : Nat) : Int) - 1).natAbs,
          rfl, hd0dig, ?_⟩
        have hshape : ((('.' :: (y :: ys)) ++ 'e' :: '-' ::
            expDigits (e + (((d0 :: y :: ys : List Char).length : Nat) : Int) -
              1).natAbs) ++ rest) =
            '.' :: ((y :: ys) ++ ('e' :: '-' ::
              (expDigits (e + (((d0 :: y :: ys : List Char).length : Nat) : Int) -
                1).natAbs ++ rest))) := by
          simp [List.append_assoc]
        rw [hshape]
        have hip : intPartDigits d0 ('.' :: ((y :: ys) ++ ('e' :: '-' ::
            (expDigits (e + (((d0 :: y :: ys : List Char).length : Nat) : Int) -
              1).natAbs ++ rest)))) =
            ([d0], '.' :: ((y :: ys) ++ ('e' :: '-' ::
              (expDigits (e + (((d0 :: y :: ys : List Char).length : Nat) : Int) -
                1).natAbs ++ rest)))) := by
          unfold intPartDigits
          rw [if_neg hd0ne]
          rfl
        show (match intPartDigits d0 ('.' :: ((y :: ys) ++ ('e' :: '-' ::
            (expDigits (e + (((d0 :: y :: ys : List Char).length : Nat) : Int) -
              1).natAbs ++ rest)))) with
          | (ids, r1) => parseNumberTail neg ids r1) = _
        rw [hip]
        show parseNumberTail neg [d0] ('.' :: ((y :: ys) ++ ('e' :: '-' ::
          (expDigits (e + (((d0 :: y :: ys : List Char).length : Nat) : Int) -
            1).natAbs ++ rest)))) = _
        rw [parseNumberTail_dot]
        have hysdig : ∀ c ∈ (y :: ys), isDigitCh c = true := fun c hc =>
          hallD c (by rw [hD]; simp [hc])
        rw [spanDigits_all (y :: ys) ('e' :: '-' ::
            (expDigits (e + (((d0 :: y :: ys : List Char).length : Nat) : Int) -
              1).natAbs ++ rest)) hysdig (show isDigitCh 'e' = false by decide),
          if_neg (by simp)]
        show parseAfterFrac neg [d0] (y :: ys) ('e' :: '-' ::
          (expDigits (e + (((d0 :: y :: ys : List Char).length : Nat) : Int) -
            1).natAbs ++ rest)) = _
        rw [parseAfterFrac_e, parseExpTail_minus]
        unfold expDigitsGo
        rw [hEX, if_neg hEne, hEfold]
        rw [if_pos rfl]
        unfold mkFloat
        have hman : digitsFold 0 ([d0] ++ (y :: ys)) = m := by
          rw [show ([d0] ++ (y :: ys) : List Char) = natToDigits m from by rw [hD]; rfl,
            digitsFold_natToDigits]
        rw [hman]
        have hexp : (-Int.ofNat (e + (((d0 :: y :: ys : List Char).length : Nat) : Int) -
            1).natAbs - (((y :: ys) : List Char).length : Int)) = e := by
          simp only [Int.ofNat_eq_natCast, List.length_cons] at hsgn ⊢
          omega
        rw [hexp, canonFloat_id neg m e hm h10]

/-- Dispatch on an opening bracket whose significant head is not the
closing bracket. -/
theorem dispatch_lbracket_ne (pe : List Char → Option (List JsonVal × List Char))
    (pm : List Char → Option (List (String × JsonVal) × List Char))
    (X : List Char) (c : Char) (Y : List Char)
    (hX : skipWs X = c :: Y) (hne : ¬c = ']') :
    parseValDispatch pe pm '[' X =
      match pe (c :: Y) with
      | some (xs, r3) => some (.arr xs, r3)
      | none => none := by
  rw [dispatch_lbracket, hX]
  show (if c = ']' then some (JsonVal.arr [], Y)
    else
      match pe (c :: Y) with
      | some (xs, r3) => some (JsonVal.arr xs, r3)
      | none => none) = _
  rw [if_neg hne]

/-- Dispatch on an opening brace whose significant head is not the closing
brace. -/
theorem dispatch_lbrace_ne (pe : List Char → Option (List JsonVal × List Char))
    (pm : List Char → Option (List (String × JsonVal) × List Char))
    (X : List Char) (c : Char) (Y : List Char)
    (hX : skipWs X = c :: Y) (hne : ¬c = jRB) :
    parseValDispatch pe pm jLB X =
      match pm (c :: Y) with
      | some (fs, r3) => some (.obj fs, r3)
      | none => none := by
  rw [dispatch_lbrace, hX]
  show (if c = jRB then some (JsonVal.obj [], Y)
    else
      match pm (c :: Y) with
      | some (fs, r3) => some (JsonVal.obj fs, r3)
      | none => none) = _
  rw [if_neg hne]

/-- Dispatch on an opening bracket whose next significant character is not
the closing bracket, cons form. -/
theorem dispatch_lbracket_go (pe : List Char → Option (List JsonVal × List Char))
    (pm : List Char → Option (List (String × JsonVal) × List Char))
    (c : Char) (Y : List Char) (hws : isWsChar c = false) (hne : ¬c = ']') :
    parseValDispatch pe pm '[' (c :: Y) =
      match pe (c :: Y) with
      | some (xs, r3) => some (JsonVal.arr xs, r3)
      | none => none :=
  dispatch_lbracket_ne pe pm (c :: Y) c Y (skipWs_cons_of_not_ws c Y hws) hne

/-- Dispatch on an opening brace whose next significant character is not
the closing brace, cons form. -/
theorem dispatch_lbrace_go (pe : List Char → Option (List JsonVal × List Char))
    (pm : List Char → Option (List (String × JsonVal) × List Char))
    (c : Char) (Y : List Char) (hws : isWsChar c = false) (hne : ¬c = jRB) :
    parseValDispatch pe pm jLB (c :: Y) =
      match pm (c :: Y) with
      | some (fs, r3) => some (JsonVal.obj fs, r3)
      | none => none :=
  dispatch_lbrace_ne pe pm (c :: Y) c Y (skipWs_cons_of_not_ws c Y hws) hne

/-- Parsing an escaped string body with the standard fuel recovers the
original characters. -/
theorem parseStringBody_escaped_len (s : List Char) (rest : List Char) :
    parseStringBody (((s.map escChar).flatten ++ '"' :: rest).length + 1)
        ((s.map escChar).flatten ++ '"' :: rest) = some (s, rest) := by
  apply parseStringBody_escaped
  simp only [List.length_append, List.length_cons]
  omega

/-- The parser inverts the serializer: with fuel at least the value's node
measure and a boundary suffix, parsing the dump of a value yields the value
and leaves exactly the suffix; similarly for element and field tails. -/
theorem parses_fuel (fuel : Nat) :
    (∀ (v : JsonVal) (rest : List Char), sizeVal v ≤ fuel → floatsOkVal v = true →
      boundaryHead rest →
      parseVal fuel (dumpsVal v ++ rest) = some (v, rest)) ∧
    (∀ (x : JsonVal) (t : List JsonVal) (rest : List Char),
      sizeElems (x :: t) ≤ fuel → floatsOkElems (x :: t) = true → boundaryHead rest →
      parseElems fuel ((dumpsVal x ++ dumpsMoreElems t) ++ ']' :: rest) = some (x :: t, rest)) ∧
    (∀ (k : String) (v : JsonVal) (t : List (String × JsonVal)) (rest : List Char),
      sizeFields ((k, v) :: t) ≤ fuel → floatsOkFields ((k, v) :: t) = true →
      boundaryHead rest →
      parseMembers fuel
          ((dumpString k ++ ':' :: ' ' :: dumpsVal v ++ dumpsMoreFields t) ++ jRB :: rest) =
        some ((k, v) :: t, rest)) := by
  induction fuel with
  | zero =>
    refine ⟨?_, ?_, ?_⟩
    · intro v rest hs _ _
      have := sizeVal_pos v
      omega
    · intro x t rest hs _ _
      have h1 := sizeVal_pos x
      have h2 := sizeElems_pos t
      simp only [sizeElems] at hs
      omega
    · intro k v t rest hs _ _
      have h1 := sizeVal_pos v
      have h2 := sizeFields_pos t
      simp only [sizeFields] at hs
      omega
  | succ f ih =>
    obtain ⟨ihv, ihe, ihm⟩ := ih
    refine ⟨?_, ?_, ?_⟩
    · intro v rest hs hfl hb
      cases v with
      | null =>
        simp only [dumpsVal, List.cons_append, List.nil_append]
        rw [parseVal_step f _ 'n' _ (skipWs_cons_of_not_ws 'n' _ (by decide))]
        rfl
      | bool b =>
        cases b with
        | true =>
          simp only [dumpsVal, List.cons_append, List.nil_append]
          rw [parseVal_step f _ 't' _ (skipWs_cons_of_not_ws 't' _ (by decide))]
          rfl
        | false =>
          simp only [dumpsVal, List.cons_append, List.nil_append]
          rw [parseVal_step f _ 'f' _ (skipWs_cons_of_not_ws 'f' _ (by decide))]
          rfl
      | num n =>
        cases n with
        | ofNat m =>
          obtain ⟨d, t2, hD, hdig, hgo⟩ := parse_intToken false m rest hb
          have hdump : dumpsVal (.num (Int.ofNat m)) ++ rest = d :: (t2 ++ rest) := by
            simp [dumpsVal, intChars, hD]
          rw [hdump,
            parseVal_step f _ d _ (skipWs_cons_of_not_ws d _ (digit_facts d hdig).1),
            dispatch_digit _ _ d _ hdig, hgo]
          have hmk : mkInt false (natToDigits m) = JsonVal.num (Int.ofNat m) := by
            unfold mkInt
            rw [if_neg Bool.false_ne_true, digitsFold_natToDigits]
          rw [hmk]
        | negSucc m =>
          obtain ⟨d, t2, hD, hdig, hgo⟩ := parse_intToken true (m + 1) rest hb
          have hdump : dumpsVal (.num (Int.negSucc m)) ++ rest =
              '-' :: (d :: (t2 ++ rest)) := by
            simp [dumpsVal, intChars, hD]
          rw [hdump,
            parseVal_step f _ '-' _ (skipWs_cons_of_not_ws '-' _ (by decide)),
            dispatch_minus_digit _ _ d _ hdig, hgo]
          have hmk : mkInt true (natToDigits (m + 1)) = JsonVal.num (Int.negSucc m) := by
            unfold mkInt
            rw [if_pos rfl, digitsFold_natToDigits]
            exact congrArg JsonVal.num rfl
          rw [hmk]
      | fnum fl =>
        cases fl with
        | nan =>
          simp only [dumpsVal, floatRepr, List.cons_append, List.nil_append]
          rw [parseVal_step f _ 'N' _ (skipWs_cons_of_not_ws 'N' _ (by decide))]
          rfl
        | inf b =>
          cases b with
          | false =>
            simp only [dumpsVal, floatRepr, List.cons_append, List.nil_append]
            rw [parseVal_step f _ 'I' _ (skipWs_cons_of_not_ws 'I' _ (by decide))]
            rfl
          | true =>
            simp only [dumpsVal, floatRepr, List.cons_append, List.nil_append]
            rw [parseVal_step f _ '-' _ (skipWs_cons_of_not_ws '-' _ (by decide))]
            rfl
        | finite sgn m e =>
          have hcan : (m % 10 ≠ 0 ∨ m = 0) ∧ (m ≠ 0 ∨ e = 0) := by
            have h := hfl
            simp only [floatsOkVal, PyFloat.canonicalRep, Bool.and_eq_true, Bool.or_eq_true,
              bne_iff_ne, beq_iff_eq, ne_eq] at h
            exact h
          by_cases hm : m = 0
          · subst hm
            have he0 : e = 0 := by
              rcases hcan.2 with h | h
              · exact absurd rfl h
              · exact h
            subst he0
            have hsp0 : spanDigits ('0' :: rest) = (['0'], rest) := by
              have h := spanDigits_all ['0'] rest
                (by intro c hc; simp at hc; subst hc; decide)
                (boundaryHead_notDigit rest hb)
              simpa using h
            cases sgn with
            | false =>
              have hdump : dumpsVal (.fnum (.finite false 0 0)) ++ rest =
                  '0' :: '.' :: '0' :: rest := rfl
              rw [hdump,
                parseVal_step f _ '0' _ (skipWs_cons_of_not_ws '0' _ (by decide)),
                dispatch_digit _ _ '0' _ (by decide)]
              show parseNumberTail false ['0'] ('.' :: '0' :: rest) = _
              rw [parseNumberTail_dot, hsp0, if_neg (by simp)]
              show parseAfterFrac false ['0'] ['0'] rest = _
              rw [parseAfterFrac_boundary false _ _ rest hb]
              rfl
            | true =>
              have hdump : dumpsVal (.fnum (.finite true 0 0)) ++ rest =
                  '-' :: '0' :: '.' :: '0' :: rest := rfl
              rw [hdump,
                parseVal_step f _ '-' _ (skipWs_cons_of_not_ws '-' _ (by decide)),
                dispatch_minus_digit _ _ '0' _ (by decide)]
              show parseNumberTail true ['0'] ('.' :: '0' :: rest) = _
              rw [parseNumberTail_dot, hsp0, if_neg (by simp)]
              show parseAfterFrac true ['0'] ['0'] rest = _
              rw [parseAfterFrac_boundary true _ _ rest hb]
              rfl
          · have h10 : m % 10 ≠ 0 := by
              rcases hcan.1 with h | h
              · exact h
              · exact absurd h hm
            have haux : canonFloatAux m m e = (m, e) := by
              have h := canonFloatAux_pow m hm h10 0 e m (by omega)
              simpa using h
            obtain ⟨d, t2, hdp, hdig, hgo⟩ := parse_floatToken sgn m e hm h10 rest hb
            cases sgn with
            | false =>
              have hdump : dumpsVal (.fnum (.finite false m e)) ++ rest =
                  d :: (t2 ++ rest) := by
                simp [dumpsVal, floatRepr, hm, haux, hdp]
              rw [hdump,
                parseVal_step f _ d _ (skipWs_cons_of_not_ws d _ (digit_facts d hdig).1),
                dispatch_digit _ _ d _ hdig, hgo]
            | true =>
              have hdump : dumpsVal (.fnum (.finite true m e)) ++ rest =
                  '-' :: (d :: (t2 ++ rest)) := by
                simp [dumpsVal, floatRepr, hm, haux, hdp]
              rw [hdump,
                parseVal_step f _ '-' _ (skipWs_cons_of_not_ws '-' _ (by decide)),
                dispatch_minus_digit _ _ d _ hdig, hgo]
      | str s =>
        have hdump : dumpsVal (.str s) ++ rest =
            '"' :: ((s.data.map escChar).flatten ++ '"' :: rest) := by
          simp [dumpsVal, dumpString]
        rw [hdump,
          parseVal_step f _ '"' _ (skipWs_cons_of_not_ws '"' _ (by decide)),
          dispatch_quote]
        rw [parseStringBody_escaped_len s.data rest]
      | arr l =>
        cases l with
        | nil =>
          simp only [dumpsVal, List.cons_append, List.nil_append]
          rw [parseVal_step f _ '[' _ (skipWs_cons_of_not_ws '[' _ (by decide))]
          rfl
        | cons x t =>
          obtain ⟨c, t2, hdx, hgh⟩ := dumpsVal_head x
          have hsz : sizeElems (x :: t) ≤ f := by
            simp only [sizeVal] at hs
            omega
          have hIH := ihe x t rest hsz hfl hb
          rw [hdx] at hIH
          simp only [List.cons_append, List.append_assoc, List.nil_append] at hIH
          have hdump : dumpsVal (.arr (x :: t)) ++ rest =
              '[' :: (c :: (t2 ++ (dumpsMoreElems t ++ ']' :: rest))) := by
            simp [dumpsVal, hdx, List.cons_append, List.append_assoc, List.nil_append]
          rw [hdump,
            parseVal_step f _ '[' _ (skipWs_cons_of_not_ws '[' _ (by decide)),
            dispatch_lbracket_go _ _ c _ (goodHead_not_ws c hgh) (goodHead_ne_rbracket c hgh),
            hIH]
      | obj fs =>
        cases fs with
        | nil =>
          simp only [dumpsVal, List.cons_append, List.nil_append]
          rw [parseVal_step f _ jLB _ (skipWs_cons_of_not_ws jLB _ (by decide))]
          rfl
        | cons kv t =>
          obtain ⟨k, w⟩ := kv
          have hsz : sizeFields ((k, w) :: t) ≤ f := by
            simp only [sizeVal] at hs
            omega
          have hIH := ihm k w t rest hsz hfl hb
          rw [show dumpString k = '"' :: ((k.data.map escChar).flatten ++ ['"']) from rfl] at hIH
          simp only [List.cons_append, List.append_assoc, List.nil_append] at hIH
          have hdump : dumpsVal (.obj ((k, w) :: t)) ++ rest =
              jLB :: ('"' :: ((k.data.map escChar).flatten ++
                ('"' :: ':' :: ' ' :: (dumpsVal w ++ (dumpsMoreFields t ++ jRB :: rest))))) := by
            simp [dumpsVal, dumpString, List.cons_append, List.append_assoc, List.nil_append]
          rw [hdump,
            parseVal_step f _ jLB _ (skipWs_cons_of_not_ws jLB _ (by decide)),
            dispatch_lbrace_go _ _ '"' _ (by decide) (by decide),
            hIH]
    · intro x t rest hs hfl hb
      have hszx : sizeVal x ≤ f := by
        have h2 := sizeElems_pos t
        simp only [sizeElems] at hs
        omega
      have hflp : floatsOkVal x = true ∧ floatsOkElems t = true := by
        simpa only [floatsOkElems, Bool.and_eq_true] using hfl
      rw [parseElems_step, List.append_assoc,
        ihv x (dumpsMoreElems t ++ ']' :: rest) hszx hflp.1 (boundary_more_elems t rest)]
      show parseElemsAfter (parseElems f) x (dumpsMoreElems t ++ ']' :: rest) =
        some (x :: t, rest)
      cases t with
      | nil => rfl
      | cons y t2 =>
        have hmf : dumpsMoreElems (y :: t2) ++ ']' :: rest =
            ',' :: ' ' :: ((dumpsVal y ++ dumpsMoreElems t2) ++ ']' :: rest) := by
          simp [dumpsMoreElems, List.cons_append, List.append_assoc]
        rw [hmf]
        show (match parseElems f (' ' :: ((dumpsVal y ++ dumpsMoreElems t2) ++ ']' :: rest)) with
          | some (vs, r3) => some (x :: vs, r3)
          | none => none) = some (x :: y :: t2, rest)
        have hszt : sizeElems (y :: t2) ≤ f := by
          have h1 := sizeVal_pos x
          simp only [sizeElems] at hs ⊢
          omega
        rw [parseElems_cons_ws, ihe y t2 rest hszt hflp.2 hb]
    · intro k v t rest hs hfl hb
      have hszv : sizeVal v ≤ f := by
        have h2 := sizeFields_pos t
        simp only [sizeFields] at hs
        omega
      have hflp : floatsOkVal v = true ∧ floatsOkFields t = true := by
        simpa only [floatsOkFields, Bool.and_eq_true] using hfl
      have hI : (dumpString k ++ ':' :: ' ' :: dumpsVal v ++ dumpsMoreFields t) ++ jRB :: rest =
          '"' :: ((k.data.map escChar).flatten ++
            '"' :: ':' :: ' ' :: (dumpsVal v ++ (dumpsMoreFields t ++ jRB :: rest))) := by
        simp [dumpString, List.cons_append, List.append_assoc, List.nil_append]
      rw [hI, parseMembers_step f _, parseStringBody_escaped_len k.data _]
      show parseMembersKV (parseVal f) (parseMembers f) k.data
          (':' :: ' ' :: (dumpsVal v ++ (dumpsMoreFields t ++ jRB :: rest))) =
        some ((k, v) :: t, rest)
      have h3 : parseMembersKV (parseVal f) (parseMembers f) k.data
          (':' :: ' ' :: (dumpsVal v ++ (dumpsMoreFields t ++ jRB :: rest))) =
          match parseVal f (' ' :: (dumpsVal v ++ (dumpsMoreFields t ++ jRB :: rest))) with
          | some (v2, r4) =>
            match skipWs r4 with
            | e :: r5 =>
              if e = ',' then
                match parseMembers f r5 with
                | some (fs2, r6) => some ((String.mk k.data, v2) :: fs2, r6)
                | none => none
              else if e = jRB then some ([(String.mk k.data, v2)], r5)
              else none
            | [] => none
          | none => none := rfl
      rw [h3, parseVal_cons_ws,
        ihv v (dumpsMoreFields t ++ jRB :: rest) hszv hflp.1 (boundary_more_fields t rest)]
      cases t with
      | nil =>
        show some ([(String.mk k.data, v)], rest) = some ([(k, v)], rest)
        rw [string_mk_data]
      | cons kv2 t2 =>
        obtain ⟨k2, w2⟩ := kv2
        have hmf : dumpsMoreFields ((k2, w2) :: t2) ++ jRB :: rest =
            ',' :: ' ' :: ((dumpString k2 ++ ':' :: ' ' :: dumpsVal w2 ++ dumpsMoreFields t2) ++
              jRB :: rest) := by
          simp [dumpsMoreFields, List.cons_append, List.append_assoc]
        rw [hmf]
        show (match parseMembers f
            (' ' :: ((dumpString k2 ++ ':' :: ' ' :: dumpsVal w2 ++ dumpsMoreFields t2) ++
              jRB :: rest)) with
          | some (fs2, r6) => some ((String.mk k.data, v) :: fs2, r6)
          | none => none) = some ((k, v) :: (k2, w2) :: t2, rest)
        have hszt : sizeFields ((k2, w2) :: t2) ≤ f := by
          have h1 := sizeVal_pos v
          simp only [sizeFields] at hs ⊢
          omega
        rw [parseMembers_cons_ws, ihm k2 w2 t2 rest hszt hflp.2 hb]

/-- Parsing the full serialization of any value (with canonical floats)
recovers the value. -/
theorem jsonLoads_dumpsVal (v : JsonVal) (hfl : floatsOkVal v = true) :
    jsonLoads (dumpsVal v) = some v := by
  have hsize : sizeVal v ≤ (dumpsVal v).length + 1 := size_le_dumps v
  have h := (parses_fuel ((dumpsVal v).length + 1)).1 v [] hsize hfl trivial
  rw [List.append_nil] at h
  unfold jsonLoads
  rw [h]
  rfl

/-- Every hexadecimal digit character is ASCII. -/
theorem hexDigitChar_ascii : ∀ k, k < 16 → (hexDigitChar k).toNat < 128 := by decide

/-- Every character of a four-digit hex block is ASCII. -/
theorem hex4_ascii (n : Nat) : ∀ d ∈ hex4 n, d.toNat < 128 := by
  intro d hd
  simp only [hex4, List.mem_cons, List.not_mem_nil, or_false] at hd
  rcases hd with h | h | h | h <;>
    (subst h; exact hexDigitChar_ascii _ (Nat.mod_lt _ (by omega)))

/-- Every character emitted by the JSON string escaper is ASCII. -/
theorem escChar_ascii (c : Char) : ∀ d ∈ escChar c, d.toNat < 128 := by
  intro d hd
  unfold escChar at hd
  split at hd
  · simp only [List.mem_cons, List.not_mem_nil, or_false] at hd
    rcases hd with h | h <;> (subst h; decide)
  · split at hd
    · simp only [List.mem_cons, List.not_mem_nil, or_false] at hd
      rcases hd with h | h <;> (subst h; decide)
    · split at hd
      · simp only [List.mem_cons, List.not_mem_nil, or_false] at hd
        rcases hd with h | h <;> (subst h; decide)
      · split at hd
        · simp only [List.mem_cons, List.not_mem_nil, or_false] at hd
          rcases hd with h | h <;> (subst h; decide)
        · split at hd
          · simp only [List.mem_cons, List.not_mem_nil, or_false] at hd
            rcases hd with h | h <;> (subst h; decide)
          · split at hd
            · simp only [List.mem_cons, List.not_mem_nil, or_false] at hd
              rcases hd with h | h <;> (subst h; decide)
            · split at hd
              · simp only [List.mem_cons, List.not_mem_nil, or_false] at hd
                rcases hd with h | h <;> (subst h; decide)
              · split at hd
                · split at hd
                  · simp only [List.mem_cons] at hd
                    rcases hd with h | h | h
                    · subst h; decide
                    · subst h; decide
                    · exact hex4_ascii _ d h
                  · simp only [List.mem_append, List.mem_cons] at hd
                    rcases hd with (h | h | h) | (h | h | h)
                    · subst h; decide
                    · subst h; decide
                    · exact hex4_ascii _ d h
                    · subst h; decide
                    · subst h; decide
                    · exact hex4_ascii _ d h
                · rename_i hrange
                  simp only [List.mem_singleton] at hd
                  subst hd
                  push_neg at hrange
                  omega

/-- Every character of a serialized string literal is ASCII. -/
theorem dumpString_ascii (s : String) : ∀ c ∈ dumpString s, c.toNat < 128 := by
  intro c hc
  simp only [dumpString] at hc
  rcases List.mem_cons.mp hc with h | h
  · subst h; decide
  · rcases List.mem_append.mp h with h2 | h2
    · rcases List.mem_flatten.mp h2 with ⟨l, hl, hcl⟩
      rcases List.mem_map.mp hl with ⟨x, _, rfl⟩
      exact escChar_ascii x c hcl
    · have hx : c = '"' := by simpa using h2
      subst hx; decide

/-- Every digit character is ASCII. -/
theorem digits_ascii (n : Nat) : ∀ c ∈ natToDigits n, c.toNat < 128 := by
  intro c hc
  have h := natToDigits_all_digits n c hc
  simp only [isDigitCh, Bool.and_eq_true, decide_eq_true_eq] at h
  omega

/-- A decimal digit is ASCII. -/
theorem isDigitCh_ascii (c : Char) (h : isDigitCh c = true) : c.toNat < 128 := by
  simp only [isDigitCh, Bool.and_eq_true, decide_eq_true_eq] at h
  omega

/-- Every character of the printed digit block of a float is ASCII. -/
theorem floatDigitsPart_ascii (m : Nat) (e : Int) :
    ∀ c ∈ floatDigitsPart m e, c.toNat < 128 := by
  intro c hc
  unfold floatDigitsPart at hc
  split at hc
  · split at hc
    · rcases List.mem_append.mp hc with h | h
      · rcases List.mem_append.mp h with h2 | h2
        · exact digits_ascii m c h2
        · exact isDigitCh_ascii c (zeroChars_digits _ c h2)
      · exact (by decide : ∀ x ∈ (['.', '0'] : List Char), x.toNat < 128) c h
    · split at hc
      · rcases List.mem_append.mp hc with h | h
        · exact digits_ascii m c (List.take_subset _ _ h)
        · rcases List.mem_cons.mp h with h2 | h2
          · subst h2; decide
          · exact digits_ascii m c (List.drop_subset _ _ h2)
      · rcases List.mem_append.mp hc with h | h
        · rcases List.mem_cons.mp h with h2 | h2
          · subst h2; decide
          · rcases List.mem_cons.mp h2 with h3 | h3
            · subst h3; decide
            · exact isDigitCh_ascii c (zeroChars_digits _ c h3)
        · exact digits_ascii m c h
  · rcases List.mem_append.mp hc with h | h
    · cases hx : natToDigits m with
      | nil => rw [hx] at h; simp at h
      | cons d0 ds0 =>
        rw [hx] at h
        rcases List.mem_cons.mp h with h2 | h2
        · subst h2
          exact digits_ascii m c (by rw [hx]; simp)
        · split at h2
          · simp at h2
          · rcases List.mem_cons.mp h2 with h3 | h3
            · subst h3; decide
            · exact digits_ascii m c (by rw [hx]; simp [h3])
    · rcases List.mem_cons.mp h with h2 | h2
      · subst h2; decide
      · rcases List.mem_cons.mp h2 with h3 | h3
        · split at h3 <;> (subst h3; decide)
        · exact isDigitCh_ascii c ((expDigits_spec _).1 c h3)

/-- Every float prints as ASCII. -/
theorem floatRepr_ascii (fl : PyFloat) : ∀ c ∈ floatRepr fl, c.toNat < 128 := by
  intro c hc
  cases fl with
  | nan => exact (by decide : ∀ x ∈ (['N', 'a', 'N'] : List Char), x.toNat < 128) c hc
  | inf b =>
    cases b with
    | false =>
      exact (by decide :
        ∀ x ∈ (['I', 'n', 'f', 'i', 'n', 'i', 't', 'y'] : List Char), x.toNat < 128) c hc
    | true =>
      exact (by decide :
        ∀ x ∈ ('-' :: ['I', 'n', 'f', 'i', 'n', 'i', 't', 'y'] : List Char),
          x.toNat < 128) c hc
  | finite neg m e =>
    rcases List.mem_append.mp hc with h | h
    · split at h
      · simp only [List.mem_singleton] at h
        subst h; decide
      · simp at h
    · split at h
      · exact (by decide : ∀ x ∈ (['0', '.', '0'] : List Char), x.toNat < 128) c h
      · rcases haux : canonFloatAux m m e with ⟨m2, e2⟩
        rw [haux] at h
        exact floatDigitsPart_ascii m2 e2 c h

mutual

/-- The default `json.dumps` output is pure ASCII (`ensure_ascii`). -/
theorem dumpsVal_ascii (v : JsonVal) : ∀ c ∈ dumpsVal v, c.toNat < 128 := by
  cases v with
  | null =>
    intro c hc
    simp only [dumpsVal, List.mem_cons, List.not_mem_nil, or_false] at hc
    rcases hc with h | h | h | h <;> (subst h; decide)
  | bool b =>
    cases b with
    | true =>
      intro c hc
      simp only [dumpsVal, List.mem_cons, List.not_mem_nil, or_false] at hc
      rcases hc with h | h | h | h <;> (subst h; decide)
    | false =>
      intro c hc
      simp only [dumpsVal, List.mem_cons, List.not_mem_nil, or_false] at hc
      rcases hc with h | h | h | h | h <;> (subst h; decide)
  | num n =>
    intro c hc
    cases n with
    | ofNat m => exact digits_ascii m c hc
    | negSucc m =>
      rcases List.mem_cons.mp hc with h | h
      · subst h; decide
      · exact digits_ascii (m + 1) c h
  | fnum fl => exact floatRepr_ascii fl
  | str s => exact dumpString_ascii s
  | arr l =>
    cases l with
    | nil =>
      intro c hc
      simp only [dumpsVal, List.mem_cons, List.not_mem_nil, or_false] at hc
      rcases hc with h | h <;> (subst h; decide)
    | cons x t =>
      intro c hc
      simp only [dumpsVal, List.mem_cons, List.mem_append, List.mem_singleton] at hc
      rcases hc with (h | h | h) | h
      · subst h; decide
      · exact dumpsVal_ascii x c h
      · exact dumpsMoreElems_ascii t c h
      · rcases h with h | h
        · subst h; decide
        · simp at h
  | obj fs =>
    cases fs with
    | nil =>
      intro c hc
      simp only [dumpsVal, List.mem_cons, List.not_mem_nil, or_false] at hc
      rcases hc with h | h <;> (subst h; decide)
    | cons kv t =>
      intro c hc
      simp only [dumpsVal, List.mem_cons, List.mem_append, List.mem_singleton] at hc
      rcases hc with (h | (h | h | h | h) | h) | h
      · subst h; decide
      · exact dumpString_ascii kv.1 c h
      · subst h; decide
      · subst h; decide
      · exact dumpsVal_ascii kv.2 c h
      · exact dumpsMoreFields_ascii t c h
      · rcases h with h | h
        · subst h; decide
        · simp at h

/-- Serialized element tails are pure ASCII. -/
theorem dumpsMoreElems_ascii (l : List JsonVal) : ∀ c ∈ dumpsMoreElems l, c.toNat < 128 := by
  cases l with
  | nil => intro c hc; simp [dumpsMoreElems] at hc
  | cons x t =>
    intro c hc
    simp only [dumpsMoreElems, List.mem_cons, List.mem_append] at hc
    rcases hc with (h | h | h) | h
    · subst h; decide
    · subst h; decide
    · exact dumpsVal_ascii x c h
    · exact dumpsMoreElems_ascii t c h

/-- Serialized field tails are pure ASCII. -/
theorem dumpsMoreFields_ascii (l : List (String × JsonVal)) :
    ∀ c ∈ dumpsMoreFields l, c.toNat < 128 := by
  cases l with
  | nil => intro c hc; simp [dumpsMoreFields] at hc
  | cons kv t =>
    intro c hc
    simp only [dumpsMoreFields, List.mem_cons, List.mem_append] at hc
    rcases hc with ((h | h | h) | h | h | h) | h
    · subst h; decide
    · subst h; decide
    · exact dumpString_ascii kv.1 c h
    · subst h; decide
    · subst h; decide
    · exact dumpsVal_ascii kv.2 c h
    · exact dumpsMoreFields_ascii t c h

end

/-- The strict decoder inverts the encoder on ASCII text, with any fuel
at least the character count. -/
theorem utf8DecodeAux_ascii (cs : List Char) : ∀ (fuel : Nat), cs.length ≤ fuel →
    (∀ c ∈ cs, c.toNat < 128) →
    utf8DecodeAux fuel (utf8Encode cs) = some cs := by
  induction cs with
  | nil =>
    intro fuel _ _
    cases fuel <;> rfl
  | cons c t ih =>
    intro fuel hlen hascii
    have hc : c.toNat < 128 := hascii c (by simp)
    cases fuel with
    | zero => simp at hlen
    | succ f =>
      have henc : utf8Encode (c :: t) = c.toNat :: utf8Encode t := by
        simp [utf8Encode, utf8EncodeChar, hc]
      rw [henc]
      show (match utf8DecodeChar c.toNat (utf8Encode t) with
        | some (n, r) =>
          match utf8DecodeAux f r with
          | some cs2 => some (Char.ofNat n :: cs2)
          | none => none
        | none => none) = some (c :: t)
      rw [show utf8DecodeChar c.toNat (utf8Encode t) = some (c.toNat, utf8Encode t) from by
        unfold utf8DecodeChar; rw [if_pos hc]]
      have hlf : t.length ≤ f := by
        simp only [List.length_cons] at hlen
        omega
      show (match utf8DecodeAux f (utf8Encode t) with
        | some cs2 => some (Char.ofNat c.toNat :: cs2)
        | none => none) = some (c :: t)
      rw [ih f hlf (fun x hx => hascii x (by simp [hx]))]
      show some (Char.ofNat c.toNat :: t) = some (c :: t)
      rw [Char.ofNat_toNat]

/-- Every character occupies at least one encoded byte. -/
theorem utf8EncodeChar_length_pos (c : Char) : 1 ≤ (utf8EncodeChar c).length := by
  unfold utf8EncodeChar
  split
  · simp
  · split
    · simp
    · split <;> simp

/-- A text is no longer than its UTF-8 encoding. -/
theorem utf8Encode_length_ge (cs : List Char) : cs.length ≤ (utf8Encode cs).length := by
  induction cs with
  | nil => simp [utf8Encode]
  | cons c t ih =>
    have h := utf8EncodeChar_length_pos c
    simp only [utf8Encode, List.map_cons, List.flatten_cons, List.length_append,
      List.length_cons]
    simp only [utf8Encode] at ih
    omega

/-- `bytes.decode('utf-8')` inverts `str.encode('utf-8')` on ASCII
text. -/
theorem utf8Decode_ascii (cs : List Char) (h : ∀ c ∈ cs, c.toNat < 128) :
    utf8Decode (utf8Encode cs) = some cs :=
  utf8DecodeAux_ascii cs (utf8Encode cs).length (utf8Encode_length_ge cs) h

/-- Four-byte big-endian framing round-trips below `2^32`. -/
theorem fromBE4_toBE4 (n : Nat) (h : n < 4294967296) :
    fromBE4 (n / 16777216 % 256) (n / 65536 % 256) (n / 256 % 256) (n % 256) = n := by
  unfold fromBE4
  omega

/-- C6: the length-prefixed wire codec round-trips: for every JSON value
within the four-byte length limit — including `float` members, embedded
as their canonical shortest-repr decimals (`hfl` states each float is in
that canonical form, which every actual Python float maps to uniquely) —
decoding the frame emitted by `send_to_carrier` (four-byte big-endian
length, then the UTF-8 bytes of the default `json.dumps` serialization)
recovers exactly the original value. -/
theorem frame_roundtrip (m : JsonVal) (hfl : floatsOkVal m = true)
    (hsize : (utf8Encode (dumpsVal m)).length < 4294967296) :
    decode_frame (send_to_carrier_frame m) = some m := by
  have hlen : fromBE4 ((utf8Encode (dumpsVal m)).length / 16777216 % 256)
      ((utf8Encode (dumpsVal m)).length / 65536 % 256)
      ((utf8Encode (dumpsVal m)).length / 256 % 256)
      ((utf8Encode (dumpsVal m)).length % 256) = (utf8Encode (dumpsVal m)).length :=
    fromBE4_toBE4 _ hsize
  show (match send_to_carrier_frame m with
    | b0 :: b1 :: b2 :: b3 :: body =>
      if body.length < fromBE4 b0 b1 b2 b3 then none
      else
        match utf8Decode (body.take (fromBE4 b0 b1 b2 b3)) with
        | none => none
        | some chars => jsonLoads chars
    | _ => none) = some m
  rw [show send_to_carrier_frame m =
      ((utf8Encode (dumpsVal m)).length / 16777216 % 256) ::
      ((utf8Encode (dumpsVal m)).length / 65536 % 256) ::
      ((utf8Encode (dumpsVal m)).length / 256 % 256) ::
      ((utf8Encode (dumpsVal m)).length % 256) :: utf8Encode (dumpsVal m) from rfl]
  show (if (utf8Encode (dumpsVal m)).length <
      fromBE4 ((utf8Encode (dumpsVal m)).length / 16777216 % 256)
        ((utf8Encode (dumpsVal m)).length / 65536 % 256)
        ((utf8Encode (dumpsVal m)).length / 256 % 256)
        ((utf8Encode (dumpsVal m)).length % 256) then none
    else
      match utf8Decode ((utf8Encode (dumpsVal m)).take
          (fromBE4 ((utf8Encode (dumpsVal m)).length / 16777216 % 256)
            ((utf8Encode (dumpsVal m)).length / 65536 % 256)
            ((utf8Encode (dumpsVal m)).length / 256 % 256)
            ((utf8Encode (dumpsVal m)).length % 256))) with
      | none => none
      | some chars => jsonLoads chars) = some m
  rw [hlen, if_neg (lt_irrefl _), List.take_length,
    utf8Decode_ascii (dumpsVal m) (dumpsVal_ascii m)]
  show jsonLoads (dumpsVal m) = some m
  exact jsonLoads_dumpsVal m hfl

set_option maxRecDepth 40000 in
/-- C6 witness: the demo payload's frame decodes back to the payload. -/
theorem frame_roundtrip_witness :
    floatsOkVal floatPayload = true ∧
    (utf8Encode (dumpsVal floatPayload)).length < 4294967296 ∧
      decode_frame (send_to_carrier_frame floatPayload) = some floatPayload :=
  ⟨by decide, by decide, frame_roundtrip floatPayload (by decide) (by decide)⟩

/-- C9, counterexample: two decode failures that produce no wire response
at all. A one-byte connection fails the length-prefix read and the
handler returns silently without a `NACK`; a well-framed body that is not
valid UTF-8 (the lone byte `0xFF`) raises `UnicodeDecodeError`, which the
`except json.JSONDecodeError` clause does not catch, so the outer handler
swallows it and again no response is written. State is untouched in
both runs. -/
theorem handle_connection_silent_counterexample :
    handle_carrier_connection defaultTrusted demoSap true "T0" emptyState [0] =
      (emptyState, none) ∧
    handle_carrier_connection defaultTrusted demoSap true "T0" emptyState
        [0, 0, 0, 1, 255] = (emptyState, none) :=
  ⟨rfl, rfl⟩

/-- C9, amended: a decode failure never touches the transaction store,
but only two of the four failure paths answer `NACK`: a short length
prefix returns silently, a short body answers `NACK`, a body that is not
valid UTF-8 escapes the JSON-only `except` clause and returns silently,
and a syntactically invalid JSON body answers `NACK`. -/
theorem handle_connection_decode_failures (trusted : List String)
    (sap : JsonVal → Option String) (reachable : Bool) (now : String)
    (st : BridgeState) (data : List Nat) :
    (data.length < 4 →
      handle_carrier_connection trusted sap reachable now st data = (st, none)) ∧
    (∀ b0 b1 b2 b3 body, data = b0 :: b1 :: b2 :: b3 :: body →
      (body.length < fromBE4 b0 b1 b2 b3 →
        handle_carrier_connection trusted sap reachable now st data =
          (st, some WireResp.nack)) ∧
      (¬body.length < fromBE4 b0 b1 b2 b3 →
        utf8Decode (body.take (fromBE4 b0 b1 b2 b3)) = none →
        handle_carrier_connection trusted sap reachable now st data = (st, none)) ∧
      (∀ chars, ¬body.length < fromBE4 b0 b1 b2 b3 →
        utf8Decode (body.take (fromBE4 b0 b1 b2 b3)) = some chars →
        jsonLoads chars = none →
        handle_carrier_connection trusted sap reachable now st data =
          (st, some WireResp.nack))) := by
  constructor
  · intro hshort
    match data, hshort with
    | [], _ => rfl
    | [_], _ => rfl
    | [_, _], _ => rfl
    | [_, _, _], _ => rfl
    | _ :: _ :: _ :: _ :: _, h => exact absurd h (by simp)
  · intro b0 b1 b2 b3 body hdata
    subst hdata
    have he : handle_carrier_connection trusted sap reachable now st
        (b0 :: b1 :: b2 :: b3 :: body) =
        if body.length < fromBE4 b0 b1 b2 b3 then (st, some WireResp.nack)
        else
          match utf8Decode (body.take (fromBE4 b0 b1 b2 b3)) with
          | none => (st, none)
          | some chars =>
            match jsonLoads chars with
            | none => (st, some WireResp.nack)
            | some payload =>
              ((process_delivery trusted sap reachable now st payload).1,
                some (if (process_delivery trusted sap reachable now st payload).2
                  then WireResp.ack else WireResp.nack)) := rfl
    refine ⟨?_, ?_, ?_⟩
    · intro hlt
      rw [he, if_pos hlt]
    · intro hge hdec
      rw [he, if_neg hge, hdec]
    · intro chars hge hdec hjson
      rw [he, if_neg hge, hdec]
      show (match jsonLoads chars with
        | none => (st, some WireResp.nack)
        | some payload =>
          ((process_delivery trusted sap reachable now st payload).1,
            some (if (process_delivery trusted sap reachable now st payload).2
              then WireResp.ack else WireResp.nack))) = (st, some WireResp.nack)
      rw [hjson]

/-- C9 witness: a frame announcing two body bytes but delivering one gets
a `NACK` with the store untouched, and a well-framed non-JSON ASCII body
(the single character `x`) also gets a `NACK`. -/
theorem handle_connection_decode_failures_witness :
    handle_carrier_connection defaultTrusted demoSap true "T0" emptyState
        [0, 0, 0, 2, 120] = (emptyState, some WireResp.nack) ∧
    handle_carrier_connection defaultTrusted demoSap true "T0" emptyState
        [0, 0, 0, 1, 120] = (emptyState, some WireResp.nack) :=
  ⟨((handle_connection_decode_failures defaultTrusted demoSap true "T0" emptyState
      [0, 0, 0, 2, 120]).2 0 0 0 2 [120] rfl).1 (by decide),
   (((handle_connection_decode_failures defaultTrusted demoSap true "T0" emptyState
      [0, 0, 0, 1, 120]).2 0 0 0 1 [120] rfl).2.2 ['x'] (by decide) rfl rfl)⟩
